import Mathlib

/-!
# PeriodicRBF1DC3: fitting and evaluation of the periodic C3 interpolant

Shallow embedding of
`robot_utils/src/function_approximators/polyharmonicSplines/PeriodicRBF1DC3.cpp`.

Modelling conventions.

* `double` is an element of an arbitrary linearly ordered field `R` with a floor
  function (exact arithmetic); concrete runs use `ℚ`.
* `Eigen::VectorXd` is a `List R`; `Eigen::MatrixXd` is a record of its two
  dimensions and its coefficient function.
* The build is the one in which `assert` is active. In that build Eigen's own
  range checks on `operator[]` and `operator()` are active too, so every element
  access is checked and every call returns an `Except Failure _`.
* `int n = (int)x_input.size()` is a natural number: a sample count beyond the
  range of `int` cannot occur, the `(n+4) x (n+4)` matrix would not fit in memory.
  The expression `n-1` is computed in `Int`, so that it is `-1` for `n = 0`.
* A member function that mutates the object returns the outcome of the call
  together with the object as it is left by the call.
* The overload of `setRBFData` on `std::vector<double>` (lines 25-31) only maps its
  arguments to Eigen vectors and calls the overload embedded here.
-/

namespace rbf

/-- The two ways in which a call aborts. -/
inductive Failure where
  /-- A C `assert` of PeriodicRBF1DC3.cpp does not hold. -/
  | assertion
  /-- An element access of an Eigen vector or matrix is out of range. -/
  | index
  deriving DecidableEq, Repr

/-- A C `assert(c)`. -/
def cAssert (c : Bool) : Except Failure Unit :=
  if c then .ok () else .error .assertion

/-- A C loop `for (int i = 0; i < n; i++) body`, threading the mutated value. -/
def forLoop {σ : Type} (n : Nat) (body : Nat → σ → Except Failure σ) (init : σ) :
    Except Failure σ :=
  match n with
  | 0 => .ok init
  | k + 1 =>
    match forLoop k body init with
    | .ok s => body k s
    | .error e => .error e

section Eigen

variable {R : Type}

/-- Read access `v[i]` of an `Eigen::VectorXd`, range checked. -/
def coeff (v : List R) (i : Int) : Except Failure R :=
  if i < 0 then .error .index
  else
    match v[i.toNat]? with
    | some a => .ok a
    | none => .error .index

/-- Write access `v[i] = a` of an `Eigen::VectorXd`, range checked. -/
def setCoeff (v : List R) (i : Int) (a : R) : Except Failure (List R) :=
  if 0 ≤ i ∧ i.toNat < v.length then .ok (v.set i.toNat a) else .error .index

/-- An `Eigen::MatrixXd`: its dimensions and its coefficients. -/
structure MatrixXd (R : Type) where
  rows : Nat
  cols : Nat
  coeff : Nat → Nat → R

/-- The result of `A.setZero()` on a freshly allocated `r x c` matrix. -/
def MatrixXd.zero [Zero R] (r c : Nat) : MatrixXd R :=
  { rows := r, cols := c, coeff := fun _ _ => 0 }

/-- Write access `A(i,j) = a`, range checked. -/
def MatrixXd.set (A : MatrixXd R) (i j : Int) (a : R) : Except Failure (MatrixXd R) :=
  if 0 ≤ i ∧ i.toNat < A.rows ∧ 0 ≤ j ∧ j.toNat < A.cols then
    .ok { A with coeff := fun r c => if r = i.toNat ∧ c = j.toNat then a else A.coeff r c }
  else .error .index

/-- The matrix-vector product `A * w`. -/
def MatrixXd.mulVec [Semiring R] (A : MatrixXd R) (w : List R) : List R :=
  (List.range A.rows).map
    (fun i => Finset.sum (Finset.range A.cols) (fun j => A.coeff i j * w.getD j 0))

/-- The linear solver `A.colPivHouseholderQr().solve(b)` of Eigen, a collaborator that
is not part of this source file. Its result has as many entries as `A` has columns. -/
structure Solver (R : Type) where
  solve : MatrixXd R → List R → List R
  solve_length : ∀ A b, (solve A b).length = A.cols

end Eigen

/-- The kernel and its first three derivatives in the second argument, inherited from
the base class `RBF1D`, which is not part of this source file. -/
structure RBF1D (R : Type) where
  evaluateBasisFunction : R → R → R
  dBFdx : R → R → R
  d2BFdx2 : R → R → R
  d3BFdx3 : R → R → R

/-- Modelled from the spec: `wrapToRange(value, lo, hi)`, a helper of robot_utils that is
not part of this source file, "mapping `value` into `[lo, hi)` by adding/subtracting
`(hi - lo)` as needed". For `lo < hi` that is the unique point of `[lo, hi)` that differs
from `value` by an integer multiple of `hi - lo`. The spec says nothing for an empty
range; there the value is returned as it is. -/
def wrapToRange {R : Type} [LinearOrderedField R] [FloorRing R] (value lo hi : R) : R :=
  if lo < hi then value - (⌊(value - lo) / (hi - lo)⌋ : R) * (hi - lo) else value

/-- The data members of a `PeriodicRBF1DC3` object. -/
structure PeriodicRBF1DC3 (R : Type) where
  xInput : List R
  fInput : List R
  w : List R
  isInitialized : Bool

section Fit

variable {R : Type} [LinearOrderedField R]

/-- Lines 56-57: `for (i < n) b[i] = f_input[i]`. -/
def fillRhs (n : Nat) (f_input : List R) (b : List R) : Except Failure (List R) :=
  forLoop n (fun i b => do
    let fi ← coeff f_input i
    setCoeff b i fi) b

/-- Lines 60-62: the basis function contributions `A(i,j)`. -/
def fillKernelBlock (K : RBF1D R) (n : Nat) (x_input : List R) (A : MatrixXd R) :
    Except Failure (MatrixXd R) :=
  forLoop n (fun i A =>
    forLoop n (fun j A => do
      let xi ← coeff x_input i
      let xj ← coeff x_input j
      A.set i j (K.evaluateBasisFunction xi xj)) A) A

/-- Lines 67-77: polynomial columns, the sum-of-weights row, and the three
derivative-matching rows. -/
def fillConstraints (K : RBF1D R) (n : Nat) (x_input : List R) (A : MatrixXd R) :
    Except Failure (MatrixXd R) :=
  forLoop n (fun i A => do
    let A ← A.set i n 1
    let xi ← coeff x_input i
    let A ← A.set i (n + 1) xi
    let A ← A.set i (n + 2) (xi * xi)
    let A ← A.set i (n + 3) (xi * xi * xi)
    let A ← A.set n i 1
    let x0 ← coeff x_input 0
    let xl ← coeff x_input ((n : Int) - 1)
    let A ← A.set (n + 1) i (K.dBFdx xi x0 - K.dBFdx xi xl)
    let A ← A.set (n + 2) i (K.d2BFdx2 xi x0 - K.d2BFdx2 xi xl)
    A.set (n + 3) i (K.d3BFdx3 xi x0 - K.d3BFdx3 xi xl)) A

/-- Lines 80-84: the polynomial cross terms of the derivative-matching rows. -/
def fillCrossTerms (n : Nat) (x_input : List R) (A : MatrixXd R) :
    Except Failure (MatrixXd R) := do
  let x0 ← coeff x_input 0
  let xl ← coeff x_input ((n : Int) - 1)
  let A ← A.set (n + 1) (n + 2) (2 * (x0 - xl))
  let A ← A.set (n + 1) (n + 3) (3 * (x0 * x0 - xl * xl))
  A.set (n + 2) (n + 3) (6 * (x0 - xl))

/-- Lines 49-84 of `setRBFData`: the matrix `A` and the right-hand side `b`. -/
def assembleSystem (K : RBF1D R) (x_input f_input : List R) :
    Except Failure (MatrixXd R × List R) := do
  let n := x_input.length
  let A : MatrixXd R := MatrixXd.zero (n + 4) (n + 4)
  let b : List R := List.replicate (n + 4) 0
  let b ← fillRhs n f_input b
  let A ← fillKernelBlock K n x_input A
  let A ← fillConstraints K n x_input A
  let A ← fillCrossTerms n x_input A
  return (A, b)

/-- The call `w.resize(m)` of line 47. Eigen keeps the vector when the size is
unchanged and otherwise allocates entries without initialising them; they are zero
here, and line 87 overwrites them before any read. -/
def resize (w : List R) (m : Nat) : List R :=
  if w.length = m then w else List.replicate m 0

/-- `PeriodicRBF1DC3::setRBFData(const Eigen::VectorXd&, const Eigen::VectorXd&)`:
the outcome of the call and the object after it. -/
def setRBFData (K : RBF1D R) (S : Solver R) (self : PeriodicRBF1DC3 R)
    (x_input f_input : List R) : Except Failure Unit × PeriodicRBF1DC3 R :=
  match cAssert (decide (x_input.length = f_input.length)) with
  | .error e => (.error e, self)
  | .ok _ =>
  match coeff f_input 0 with
  | .error e => (.error e, self)
  | .ok f0 =>
  match coeff f_input ((f_input.length : Int) - 1) with
  | .error e => (.error e, self)
  | .ok fl =>
  match cAssert (decide (f0 = fl)) with
  | .error e => (.error e, self)
  | .ok _ =>
  let self := { self with xInput := x_input }
  let self := { self with fInput := f_input }
  let self := { self with w := resize self.w (self.xInput.length + 4) }
  match assembleSystem K x_input f_input with
  | .error e => (.error e, self)
  | .ok (A, b) =>
  let self := { self with w := S.solve A b }
  let self := { self with isInitialized := true }
  (.ok (), self)

end Fit

section Evaluate

variable {R : Type} [LinearOrderedField R] [FloorRing R]

/-- `PeriodicRBF1DC3::evaluate(double x) const`. -/
def evaluate (K : RBF1D R) (self : PeriodicRBF1DC3 R) (x : R) : Except Failure R := do
  cAssert (self.isInitialized == true)
  let n := self.xInput.length
  let x0 ← coeff self.xInput 0
  let xl ← coeff self.xInput ((n : Int) - 1)
  let x := wrapToRange x x0 xl
  let result : R := 0
  if (n : Int) ≤ 0 then .ok result
  else do
    let result ← forLoop n (fun k result => do
      let wk ← coeff self.w k
      let xk ← coeff self.xInput k
      .ok (result + wk * K.evaluateBasisFunction xk x)) result
    let w0 ← coeff self.w n
    let w1 ← coeff self.w (n + 1)
    let w2 ← coeff self.w (n + 2)
    let w3 ← coeff self.w (n + 3)
    .ok (result + (1 * w0 + x * w1 + x * x * w2 + x * x * x * w3))

/-- `PeriodicRBF1DC3::evaluateFirstDerivative(double x) const`. -/
def evaluateFirstDerivative (K : RBF1D R) (self : PeriodicRBF1DC3 R) (x : R) :
    Except Failure R := do
  cAssert (self.isInitialized == true)
  let n := self.xInput.length
  let x0 ← coeff self.xInput 0
  let xl ← coeff self.xInput ((n : Int) - 1)
  let x := wrapToRange x x0 xl
  let result : R := 0
  if (n : Int) ≤ 0 then .ok result
  else do
    let result ← forLoop n (fun k result => do
      let wk ← coeff self.w k
      let xk ← coeff self.xInput k
      .ok (result + wk * K.dBFdx xk x)) result
    let w1 ← coeff self.w (n + 1)
    let w2 ← coeff self.w (n + 2)
    let w3 ← coeff self.w (n + 3)
    .ok (result + (w1 + 2 * x * w2 + 3 * x * x * w3))

/-- `PeriodicRBF1DC3::evaluateSecondDerivative(double x) const`. -/
def evaluateSecondDerivative (K : RBF1D R) (self : PeriodicRBF1DC3 R) (x : R) :
    Except Failure R := do
  cAssert (self.isInitialized == true)
  let n := self.xInput.length
  let x0 ← coeff self.xInput 0
  let xl ← coeff self.xInput ((n : Int) - 1)
  let x := wrapToRange x x0 xl
  let result : R := 0
  if (n : Int) ≤ 0 then .ok result
  else do
    let result ← forLoop n (fun k result => do
      let wk ← coeff self.w k
      let xk ← coeff self.xInput k
      .ok (result + wk * K.d2BFdx2 xk x)) result
    let w2 ← coeff self.w (n + 2)
    let w3 ← coeff self.w (n + 3)
    .ok (result + (2 * w2 + 6 * x * w3))

/-- `PeriodicRBF1DC3::evaluateThirdDerivative(double x) const`. -/
def evaluateThirdDerivative (K : RBF1D R) (self : PeriodicRBF1DC3 R) (x : R) :
    Except Failure R := do
  cAssert (self.isInitialized == true)
  let n := self.xInput.length
  let x0 ← coeff self.xInput 0
  let xl ← coeff self.xInput ((n : Int) - 1)
  let x := wrapToRange x x0 xl
  let result : R := 0
  if (n : Int) ≤ 0 then .ok result
  else do
    let result ← forLoop n (fun k result => do
      let wk ← coeff self.w k
      let xk ← coeff self.xInput k
      .ok (result + wk * K.d3BFdx3 xk x)) result
    let w3 ← coeff self.w (n + 3)
    .ok (result + 6 * w3)

end Evaluate

/-! ## The entries that the fit writes, in closed form -/

section Closed

variable {R : Type} [LinearOrderedField R]

/-- The sample coordinate `x_i` (zero beyond the end of the vector). -/
def sample (x : List R) (i : Nat) : R := x.getD i 0

/-- The entry `A[r][c]` of the system of a fit on the samples `x`, as the design
describes it: kernel block, polynomial columns, sum-of-weights row, three
derivative-matching rows with their cross terms, zero elsewhere. -/
def systemCoeff (K : RBF1D R) (x : List R) (r c : Nat) : R :=
  let n := x.length
  let x0 := sample x 0
  let xl := sample x (n - 1)
  if r < n then
    if c < n then K.evaluateBasisFunction (sample x r) (sample x c)
    else if c = n then 1
    else if c = n + 1 then sample x r
    else if c = n + 2 then sample x r * sample x r
    else if c = n + 3 then sample x r * sample x r * sample x r
    else 0
  else if r = n then
    if c < n then 1 else 0
  else if r = n + 1 then
    if c < n then K.dBFdx (sample x c) x0 - K.dBFdx (sample x c) xl
    else if c = n + 2 then 2 * (x0 - xl)
    else if c = n + 3 then 3 * (x0 * x0 - xl * xl)
    else 0
  else if r = n + 2 then
    if c < n then K.d2BFdx2 (sample x c) x0 - K.d2BFdx2 (sample x c) xl
    else if c = n + 3 then 6 * (x0 - xl)
    else 0
  else if r = n + 3 then
    if c < n then K.d3BFdx3 (sample x c) x0 - K.d3BFdx3 (sample x c) xl
    else 0
  else 0

/-- The entry `b[i]` of the right-hand side of a fit on the values `f` of `n` samples. -/
def rhsCoeff (n : Nat) (f : List R) (i : Nat) : R :=
  if i < n then f.getD i 0 else 0

/-- The weight `w_k` (zero beyond the end of the vector). -/
def weight (w : List R) (k : Nat) : R := w.getD k 0

/-- The kernel part `sum_{k<n} w_k * g(x_k, q)` of an evaluator at the coordinate `q`. -/
def kernelSum (g : R → R → R) (x w : List R) (q : R) : R :=
  Finset.sum (Finset.range x.length) (fun k => weight w k * g (sample x k) q)

/-- The expression that `evaluate` computes, taken at the coordinate `q` without wrapping. -/
def S0 (K : RBF1D R) (x w : List R) (q : R) : R :=
  kernelSum K.evaluateBasisFunction x w q +
    (1 * weight w x.length + q * weight w (x.length + 1) + q * q * weight w (x.length + 2) +
      q * q * q * weight w (x.length + 3))

/-- The expression that `evaluateFirstDerivative` computes, at `q` without wrapping. -/
def S1 (K : RBF1D R) (x w : List R) (q : R) : R :=
  kernelSum K.dBFdx x w q +
    (weight w (x.length + 1) + 2 * q * weight w (x.length + 2) +
      3 * q * q * weight w (x.length + 3))

/-- The expression that `evaluateSecondDerivative` computes, at `q` without wrapping. -/
def S2 (K : RBF1D R) (x w : List R) (q : R) : R :=
  kernelSum K.d2BFdx2 x w q + (2 * weight w (x.length + 2) + 6 * q * weight w (x.length + 3))

/-- The expression that `evaluateThirdDerivative` computes, at `q` without wrapping. -/
def S3 (K : RBF1D R) (x w : List R) (q : R) : R :=
  kernelSum K.d3BFdx3 x w q + 6 * weight w (x.length + 3)

end Closed

/-! ## Auxiliary descriptions used in the proofs -/

section Auxiliary

variable {R : Type}

/-- The matrix `A` after an in-range write `A(i,j) = a`. -/
def MatrixXd.put (A : MatrixXd R) (i j : Nat) (a : R) : MatrixXd R :=
  { A with coeff := fun r c => if r = i ∧ c = j then a else A.coeff r c }

/-- The matrix `A` is `N x N` with the entries `E`. -/
def HasEntries (A : MatrixXd R) (N : Nat) (E : Nat → Nat → R) : Prop :=
  A.rows = N ∧ A.cols = N ∧ ∀ r c, A.coeff r c = E r c

end Auxiliary

section AuxiliaryEntries

variable {R : Type} [LinearOrderedField R]

/-- What lines 68-71 write into row `r < n`, column `c >= n`. -/
def polyEntry (x : List R) (r c : Nat) : R :=
  if c = x.length then 1
  else if c = x.length + 1 then sample x r
  else if c = x.length + 2 then sample x r * sample x r
  else if c = x.length + 3 then sample x r * sample x r * sample x r
  else 0

/-- What lines 72-75 write into row `r >= n`, column `c < n`. -/
def rowEntry (K : RBF1D R) (x : List R) (r c : Nat) : R :=
  if r = x.length then 1
  else if r = x.length + 1 then
    K.dBFdx (sample x c) (sample x 0) - K.dBFdx (sample x c) (sample x (x.length - 1))
  else if r = x.length + 2 then
    K.d2BFdx2 (sample x c) (sample x 0) - K.d2BFdx2 (sample x c) (sample x (x.length - 1))
  else if r = x.length + 3 then
    K.d3BFdx3 (sample x c) (sample x 0) - K.d3BFdx3 (sample x c) (sample x (x.length - 1))
  else 0

/-- The entries of `A` after `i` iterations of the loop of lines 67-77. -/
def constraintEntries (K : RBF1D R) (x : List R) (i r c : Nat) : R :=
  if r < x.length then
    if c < x.length then K.evaluateBasisFunction (sample x r) (sample x c)
    else if r < i then polyEntry x r c
    else 0
  else if c < i then rowEntry K x r c
  else 0

/-- What lines 80-84 write into the lower right corner (`r >= n`, `c >= n`). -/
def cornerEntry (x : List R) (r c : Nat) : R :=
  if r = x.length + 1 ∧ c = x.length + 2 then 2 * (sample x 0 - sample x (x.length - 1))
  else if r = x.length + 1 ∧ c = x.length + 3 then
    3 * (sample x 0 * sample x 0 - sample x (x.length - 1) * sample x (x.length - 1))
  else if r = x.length + 2 ∧ c = x.length + 3 then
    6 * (sample x 0 - sample x (x.length - 1))
  else 0

/-- The weights `w` solve, exactly, the system that a fit on `(x, f)` assembles. -/
def SolvesSystem (K : RBF1D R) (x f w : List R) : Prop :=
  match assembleSystem K x f with
  | .ok (A, b) => A.mulVec w = b
  | .error _ => False

end AuxiliaryEntries

section AuxiliaryWrap

variable {R : Type} [LinearOrderedField R] [FloorRing R]

/-- The wrapped query of a state: `wrapToRange(q, xInput[0], xInput[n-1])`. -/
def wrapped (self : PeriodicRBF1DC3 R) (q : R) : R :=
  wrapToRange q (sample self.xInput 0) (sample self.xInput (self.xInput.length - 1))

end AuxiliaryWrap

/-! ## The evaluation routine as the design words it -/

section DesignedTerms

variable {R : Type} [LinearOrderedField R]

/-- The kernel derivative of order `d`: order 0 is the kernel itself, orders 1, 2, 3 are
its derivatives in the second argument (the query). -/
def kernelOfOrder (K : RBF1D R) (d : Fin 4) : R → R → R :=
  match d with
  | 0 => K.evaluateBasisFunction
  | 1 => K.dBFdx
  | 2 => K.d2BFdx2
  | 3 => K.d3BFdx3

/-- The polynomial-term contribution of order `d` at the wrapped query `q`, as the design
lists it, with `p0..p3` the coefficients `w_n..w_{n+3}`. -/
def polynomialOfOrder (p0 p1 p2 p3 : R) (d : Fin 4) (q : R) : R :=
  match d with
  | 0 => p0 + p1 * q + p2 * q ^ 2 + p3 * q ^ 3
  | 1 => p1 + 2 * p2 * q + 3 * p3 * q ^ 2
  | 2 => 2 * p2 + 6 * p3 * q
  | 3 => 6 * p3

end DesignedTerms

section Designed

variable {R : Type} [LinearOrderedField R] [FloorRing R]

/-- The one routine of the design, parameterized by the derivative order `d`: wrap the
query into the sample domain, sum `w_i` times the order-`d` kernel at `(x_i, wrapped query)`
over the samples, add the order-`d` polynomial term. -/
def evaluateOrder (K : RBF1D R) (self : PeriodicRBF1DC3 R) (d : Fin 4) (q : R) : R :=
  let n := self.xInput.length
  let q' := wrapToRange q (sample self.xInput 0) (sample self.xInput (n - 1))
  Finset.sum (Finset.range n)
      (fun i => weight self.w i * kernelOfOrder K d (sample self.xInput i) q') +
    polynomialOfOrder (weight self.w n) (weight self.w (n + 1)) (weight self.w (n + 2))
      (weight self.w (n + 3)) d q'

/-- The number that a call returned (zero for a call that failed). -/
def returned (r : Except Failure R) : R :=
  match r with
  | .ok v => v
  | .error _ => 0

end Designed

/-! ## Concrete data for worked instances -/

section Instances

/-- A symmetric kernel, `(a - b)^2`, with its derivatives in the second argument. -/
def squareKernel : RBF1D ℚ :=
  { evaluateBasisFunction := fun a b => (a - b) * (a - b)
    dBFdx := fun a b => 2 * (b - a)
    d2BFdx2 := fun _ _ => 2
    d3BFdx3 := fun _ _ => 0 }

/-- A kernel that is not symmetric, `K(a, b) = a`; its derivatives in `b` vanish. -/
def skewKernel : RBF1D ℚ :=
  { evaluateBasisFunction := fun a _ => a
    dBFdx := fun _ _ => 0
    d2BFdx2 := fun _ _ => 0
    d3BFdx3 := fun _ _ => 0 }

/-- A solver that answers `w0` whenever `w0` has the size of the system. -/
def fixedSolver (w0 : List ℚ) : Solver ℚ :=
  { solve := fun A _ => if w0.length = A.cols then w0 else List.replicate A.cols 0
    solve_length := fun A _ => by
      by_cases h : w0.length = A.cols
      · simp only [h, if_true]
      · simp only [h, if_false, List.length_replicate] }

/-- An object on which no fit has run. -/
def unfitted : PeriodicRBF1DC3 ℚ :=
  { xInput := [], fInput := [], w := [], isInitialized := false }

/-- The object after a fit of `x = [0, 1]`, `f = [5, 5]` with the weights
`[1, -1, 6, -2, 0, 0]`, which solve the system of `squareKernel` exactly. -/
def fittedSquare : PeriodicRBF1DC3 ℚ :=
  { xInput := [0, 1], fInput := [5, 5], w := [1, -1, 6, -2, 0, 0], isInitialized := true }

/-- The object after a fit of `x = [0, 1]`, `f = [5, 5]` with the weights
`[1, -1, 5, 0, 0, 0]`, which solve the system of `skewKernel` exactly. -/
def fittedSkew : PeriodicRBF1DC3 ℚ :=
  { xInput := [0, 1], fInput := [5, 5], w := [1, -1, 5, 0, 0, 0], isInitialized := true }

/-- An initialised state on the samples `x = [0, 1, 2, 3, 4]`, `f = [0, 1, 0, -1, 0]` of
the design's scenario, with nine arbitrary weights. -/
def sineLike : PeriodicRBF1DC3 ℚ :=
  { xInput := [0, 1, 2, 3, 4], fInput := [0, 1, 0, -1, 0], w := [3, -1, 4, 1, -5, 9, 2, -6, 5],
    isInitialized := true }

/-- The kernel `(a - b)^2` of `squareKernel` with its derivatives, over any field. -/
def squareKernelOver (R : Type) [LinearOrderedField R] : RBF1D R :=
  { evaluateBasisFunction := fun a b => (a - b) * (a - b)
    dBFdx := fun a b => 2 * (b - a)
    d2BFdx2 := fun _ _ => 2
    d3BFdx3 := fun _ _ => 0 }

/-- The object `fittedSquare` over any field. -/
def fittedSquareOver (R : Type) [LinearOrderedField R] : PeriodicRBF1DC3 R :=
  { xInput := [0, 1], fInput := [5, 5], w := [1, -1, 6, -2, 0, 0], isInitialized := true }

end Instances

/-! ## Loops and element accesses -/

section Basics

variable {R : Type}

theorem forLoop_zero {σ : Type} (body : Nat → σ → Except Failure σ) (init : σ) :
    forLoop 0 body init = .ok init := rfl

theorem forLoop_succ_ok {σ : Type} (k : Nat) (body : Nat → σ → Except Failure σ)
    (init s : σ) (h : forLoop k body init = .ok s) :
    forLoop (k + 1) body init = body k s := by
  simp [forLoop, h]

/-- Loop invariant rule: an invariant that holds before the loop and that every
iteration re-establishes without failing holds after the loop, which does not fail. -/
theorem forLoop_inv {σ : Type} (P : Nat → σ → Prop) (n : Nat)
    (body : Nat → σ → Except Failure σ) (init : σ) (h0 : P 0 init)
    (hstep : ∀ i s, i < n → P i s → ∃ s', body i s = .ok s' ∧ P (i + 1) s') :
    ∃ s', forLoop n body init = .ok s' ∧ P n s' := by
  induction n with
  | zero => exact ⟨init, rfl, h0⟩
  | succ k ih =>
    obtain ⟨s, hs, hP⟩ := ih (fun i s hi => hstep i s (Nat.lt_succ_of_lt hi))
    obtain ⟨s', hs', hP'⟩ := hstep k s (Nat.lt_succ_self k) hP
    exact ⟨s', by rw [forLoop_succ_ok k body init s hs, hs'], hP'⟩

theorem coeff_ofNat (v : List R) (i : Nat) (d : R) (h : i < v.length) :
    coeff v (i : Int) = .ok (v.getD i d) := by
  have h1 : ¬ ((i : Int) < 0) := by omega
  simp [coeff, h1, List.getD_eq_getElem?_getD, List.getElem?_eq_getElem h]

theorem coeff_zero (v : List R) (d : R) (h : 0 < v.length) :
    coeff v 0 = .ok (v.getD 0 d) := by
  simpa using coeff_ofNat v 0 d h

theorem coeff_last (v : List R) (d : R) (h : 0 < v.length) :
    coeff v ((v.length : Int) - 1) = .ok (v.getD (v.length - 1) d) := by
  have e : ((v.length : Int) - 1) = ((v.length - 1 : Nat) : Int) := by omega
  rw [e]
  exact coeff_ofNat v (v.length - 1) d (by omega)

theorem coeff_nil (i : Int) : coeff ([] : List R) i = .error .index := by
  unfold coeff
  split <;> simp

theorem setCoeff_ofNat (v : List R) (i : Nat) (a : R) (h : i < v.length) :
    setCoeff v (i : Int) a = .ok (v.set i a) := by
  simp [setCoeff, h]

theorem set_ofNat (A : MatrixXd R) (i j : Nat) (a : R) (hi : i < A.rows) (hj : j < A.cols) :
    A.set (i : Int) (j : Int) a =
      .ok { A with coeff := fun r c => if r = i ∧ c = j then a else A.coeff r c } := by
  simp [MatrixXd.set, hi, hj]

theorem coeff_of_eq (v : List R) (i : Int) (k : Nat) (d : R) (hk : i = (k : Int))
    (h : k < v.length) : coeff v i = .ok (v.getD k d) := by
  subst hk
  exact coeff_ofNat v k d h

theorem put_rows (A : MatrixXd R) (i j : Nat) (a : R) : (A.put i j a).rows = A.rows := rfl

theorem put_cols (A : MatrixXd R) (i j : Nat) (a : R) : (A.put i j a).cols = A.cols := rfl

theorem put_coeff (A : MatrixXd R) (i j : Nat) (a : R) (r c : Nat) :
    (A.put i j a).coeff r c = if r = i ∧ c = j then a else A.coeff r c := rfl

theorem set_of_eq (A : MatrixXd R) (i j : Int) (k l : Nat) (a : R) (hk : i = (k : Int))
    (hl : j = (l : Int)) (hi : k < A.rows) (hj : l < A.cols) :
    A.set i j a = .ok (A.put k l a) := by
  subst hk hl
  exact set_ofNat A k l a hi hj

theorem cAssert_true : cAssert true = .ok () := rfl

theorem cAssert_false : cAssert false = .error .assertion := rfl

theorem ok_bind {α β : Type} (a : α) (g : α → Except Failure β) :
    (Except.ok a >>= g) = g a := rfl

theorem error_bind {α β : Type} (e : Failure) (g : α → Except Failure β) :
    ((Except.error e : Except Failure α) >>= g) = .error e := rfl

end Basics

/-! ## What the fit assembles -/

section Assembled

variable {R : Type} [LinearOrderedField R]

theorem fillRhs_ok (n : Nat) (f : List R) (hf : n ≤ f.length) :
    ∃ b, fillRhs n f (List.replicate (n + 4) 0) = .ok b ∧ b.length = n + 4 ∧
      ∀ i, b.getD i 0 = rhsCoeff n f i := by
  have key := forLoop_inv
    (fun k (b : List R) => b.length = n + 4 ∧
      ∀ i, b.getD i 0 = if i < k then f.getD i 0 else 0)
    n (fun i b => do
      let fi ← coeff f i
      setCoeff b i fi) (List.replicate (n + 4) 0)
    (by
      refine ⟨by simp, fun i => ?_⟩
      simp only [List.getD_eq_getElem?_getD, List.getElem?_replicate]
      split <;> simp)
    (by
      intro i b hi ⟨hlen, hb⟩
      refine ⟨b.set i (f.getD i 0), ?_, by simpa using hlen, fun j => ?_⟩
      · show (coeff f (i : Int) >>= fun fi => setCoeff b (i : Int) fi) = _
        rw [coeff_ofNat f i 0 (by omega), ok_bind, setCoeff_ofNat b i _ (by omega)]
      · rw [List.getD_eq_getElem?_getD, List.getElem?_set]
        by_cases hji : i = j
        · subst hji
          have : i < b.length := by omega
          simp [this]
        · have h2 := hb j
          rw [List.getD_eq_getElem?_getD] at h2
          simp only [hji, if_false, h2]
          by_cases hj : j < i
          · simp [hj, Nat.lt_succ_of_lt hj]
          · have : ¬ j < i + 1 := by omega
            simp [hj, this])
  obtain ⟨b, hb, hlen, hget⟩ := key
  exact ⟨b, hb, hlen, fun i => by rw [hget i]; rfl⟩

theorem fillKernelBlock_ok (K : RBF1D R) (x : List R) :
    ∃ A, fillKernelBlock K x.length x (MatrixXd.zero (x.length + 4) (x.length + 4)) = .ok A ∧
      HasEntries A (x.length + 4) (fun r c =>
        if r < x.length ∧ c < x.length then K.evaluateBasisFunction (sample x r) (sample x c)
        else 0) := by
  unfold fillKernelBlock
  refine forLoop_inv
    (fun i (A : MatrixXd R) => HasEntries A (x.length + 4) (fun r c =>
        if r < i ∧ c < x.length then K.evaluateBasisFunction (sample x r) (sample x c)
        else 0)) x.length _ _ ⟨rfl, rfl, fun r c => by simp [MatrixXd.zero]⟩ ?_
  intro i A hi hA
  have inner := forLoop_inv
    (fun j (B : MatrixXd R) => HasEntries B (x.length + 4) (fun r c =>
        if (r < i ∧ c < x.length) ∨ (r = i ∧ c < j) then
          K.evaluateBasisFunction (sample x r) (sample x c)
        else 0)) x.length
    (fun j B => do
      let xi ← coeff x i
      let xj ← coeff x j
      B.set i j (K.evaluateBasisFunction xi xj)) A
    ⟨hA.1, hA.2.1, fun r c => by rw [hA.2.2 r c]; simp⟩
    (by
      intro j B hj ⟨hr, hc, hB⟩
      refine ⟨B.put i j (K.evaluateBasisFunction (sample x i) (sample x j)), ?_, hr, hc, ?_⟩
      · show (coeff x (i : Int) >>= fun xi => coeff x (j : Int) >>= fun xj =>
          B.set (i : Int) (j : Int) (K.evaluateBasisFunction xi xj)) = _
        rw [coeff_ofNat x i 0 hi, ok_bind, coeff_ofNat x j 0 hj, ok_bind,
          set_ofNat B i j _ (by omega) (by omega)]
        rfl
      · intro r c
        rw [put_coeff, hB r c]
        by_cases h1 : r = i ∧ c = j
        · obtain ⟨rfl, rfl⟩ := h1
          simp [hj]
        · rw [if_neg h1]
          have : ((r < i ∧ c < x.length) ∨ (r = i ∧ c < j + 1)) ↔
              ((r < i ∧ c < x.length) ∨ (r = i ∧ c < j)) := by
            constructor
            · rintro (h | ⟨h, h'⟩)
              · exact Or.inl h
              · exact Or.inr ⟨h, by
                  have : c ≠ j := fun e => h1 ⟨h, e⟩
                  omega⟩
            · rintro (h | ⟨h, h'⟩)
              · exact Or.inl h
              · exact Or.inr ⟨h, by omega⟩
          simp only [this])
  obtain ⟨B, hB, hr, hc, hE⟩ := inner
  refine ⟨B, hB, hr, hc, fun r c => ?_⟩
  rw [hE r c]
  have : ((r < i ∧ c < x.length) ∨ (r = i ∧ c < x.length)) ↔ (r < i + 1 ∧ c < x.length) := by
    constructor
    · rintro (⟨h, h'⟩ | ⟨h, h'⟩)
      · exact ⟨by omega, h'⟩
      · exact ⟨by omega, h'⟩
    · rintro ⟨h, h'⟩
      by_cases e : r = i
      · exact Or.inr ⟨e, h'⟩
      · exact Or.inl ⟨by omega, h'⟩
  simp only [this]

theorem constraintEntries_row (K : RBF1D R) (x : List R) (i r c : Nat) (hi : i < x.length)
    (hr : x.length ≤ r) :
    constraintEntries K x (i + 1) r c =
      if c = i then rowEntry K x r i else constraintEntries K x i r c := by
  unfold constraintEntries
  split_ifs <;> first | rfl | (exfalso; omega) | (subst_vars; rfl)

theorem constraintEntries_col (K : RBF1D R) (x : List R) (i r c : Nat) (hi : i < x.length)
    (hc : x.length ≤ c) :
    constraintEntries K x (i + 1) r c =
      if r = i then polyEntry x i c else constraintEntries K x i r c := by
  unfold constraintEntries
  split_ifs <;> first | rfl | (exfalso; omega) | (subst_vars; rfl)

theorem constraintEntries_block (K : RBF1D R) (x : List R) (i r c : Nat)
    (hr : r < x.length) (hc : c < x.length) :
    constraintEntries K x (i + 1) r c = constraintEntries K x i r c := by
  unfold constraintEntries
  simp only [hr, hc, if_true]

theorem constraintEntries_outer (K : RBF1D R) (x : List R) (i r c : Nat) (hi : i < x.length)
    (hr : x.length ≤ r) (hc : x.length ≤ c) :
    constraintEntries K x (i + 1) r c = constraintEntries K x i r c := by
  unfold constraintEntries
  split_ifs <;> first | rfl | (exfalso; omega)

theorem fillConstraints_step (K : RBF1D R) (x : List R) (i : Nat) (A : MatrixXd R)
    (hi : i < x.length) (hA : HasEntries A (x.length + 4) (constraintEntries K x i)) :
    ∃ B, (do
        let A ← A.set i x.length 1
        let xi ← coeff x i
        let A ← A.set i (x.length + 1) xi
        let A ← A.set i (x.length + 2) (xi * xi)
        let A ← A.set i (x.length + 3) (xi * xi * xi)
        let A ← A.set x.length i 1
        let x0 ← coeff x 0
        let xl ← coeff x ((x.length : Int) - 1)
        let A ← A.set (x.length + 1) i (K.dBFdx xi x0 - K.dBFdx xi xl)
        let A ← A.set (x.length + 2) i (K.d2BFdx2 xi x0 - K.d2BFdx2 xi xl)
        A.set (x.length + 3) i (K.d3BFdx3 xi x0 - K.d3BFdx3 xi xl)) = .ok B ∧
      HasEntries B (x.length + 4) (constraintEntries K x (i + 1)) := by
  obtain ⟨hr, hc, hE⟩ := hA
  have hpos : 0 < x.length := by omega
  refine ⟨((((((((A.put i x.length 1).put i (x.length + 1) (sample x i)).put i (x.length + 2)
      (sample x i * sample x i)).put i (x.length + 3)
      (sample x i * sample x i * sample x i)).put x.length i 1).put (x.length + 1) i
      (K.dBFdx (sample x i) (sample x 0) - K.dBFdx (sample x i) (sample x (x.length - 1)))).put
      (x.length + 2) i
      (K.d2BFdx2 (sample x i) (sample x 0) - K.d2BFdx2 (sample x i) (sample x (x.length - 1)))).put
      (x.length + 3) i
      (K.d3BFdx3 (sample x i) (sample x 0) - K.d3BFdx3 (sample x i) (sample x (x.length - 1)))),
    ?_, ?_⟩
  · rw [set_of_eq A _ _ i x.length _ rfl rfl (by omega) (by omega), ok_bind,
      coeff_ofNat x i 0 hi, ok_bind,
      set_of_eq _ _ _ i (x.length + 1) _ rfl (by omega) (by rw [put_rows]; omega)
        (by rw [put_cols]; omega), ok_bind,
      set_of_eq _ _ _ i (x.length + 2) _ rfl (by omega) (by simp only [put_rows]; omega)
        (by simp only [put_cols]; omega), ok_bind,
      set_of_eq _ _ _ i (x.length + 3) _ rfl (by omega) (by simp only [put_rows]; omega)
        (by simp only [put_cols]; omega), ok_bind,
      set_of_eq _ _ _ x.length i _ rfl rfl (by simp only [put_rows]; omega)
        (by simp only [put_cols]; omega), ok_bind,
      coeff_zero x 0 hpos, ok_bind, coeff_last x 0 hpos, ok_bind,
      set_of_eq _ _ _ (x.length + 1) i _ (by omega) rfl (by simp only [put_rows]; omega)
        (by simp only [put_cols]; omega), ok_bind,
      set_of_eq _ _ _ (x.length + 2) i _ (by omega) rfl (by simp only [put_rows]; omega)
        (by simp only [put_cols]; omega), ok_bind,
      set_of_eq _ _ _ (x.length + 3) i _ (by omega) rfl (by simp only [put_rows]; omega)
        (by simp only [put_cols]; omega)]
    rfl
  · refine ⟨by simp only [put_rows]; exact hr, by simp only [put_cols]; exact hc, fun r c => ?_⟩
    simp only [put_coeff, hE r c]
    by_cases hrn : r < x.length
    · have e3 : ¬ r = x.length + 3 := by omega
      have e2 : ¬ r = x.length + 2 := by omega
      have e1 : ¬ r = x.length + 1 := by omega
      have e0 : ¬ r = x.length := by omega
      simp only [e3, e2, e1, e0, false_and, if_false]
      by_cases hcn : c < x.length
      · have c3 : ¬ c = x.length + 3 := by omega
        have c2 : ¬ c = x.length + 2 := by omega
        have c1 : ¬ c = x.length + 1 := by omega
        have c0 : ¬ c = x.length := by omega
        simp only [c3, c2, c1, c0, and_false, if_false]
        exact (constraintEntries_block K x i r c hrn hcn).symm
      · rw [constraintEntries_col K x i r c hi (by omega)]
        by_cases hri : r = i
        · subst hri
          simp only [true_and, if_true, polyEntry]
          split_ifs <;> first
            | rfl
            | (exfalso; omega)
            | (unfold constraintEntries; split_ifs <;> first | rfl | (exfalso; omega))
        · simp only [hri, false_and, if_false]
    · by_cases hcn : c < x.length
      · have c3 : ¬ c = x.length + 3 := by omega
        have c2 : ¬ c = x.length + 2 := by omega
        have c1 : ¬ c = x.length + 1 := by omega
        have c0 : ¬ c = x.length := by omega
        have ri : ¬ r = i := by omega
        simp only [c3, c2, c1, c0, ri, and_false, false_and, if_false]
        rw [constraintEntries_row K x i r c hi (by omega)]
        by_cases hci : c = i
        · subst hci
          simp only [and_true, if_true, rowEntry]
          split_ifs <;> first
            | rfl
            | (exfalso; omega)
            | (unfold constraintEntries; split_ifs <;> first | rfl | (exfalso; omega))
        · simp only [hci, and_false, if_false]
      · have ri : ¬ r = i := by omega
        have ci : ¬ c = i := by omega
        simp only [ri, ci, and_false, false_and, if_false]
        exact (constraintEntries_outer K x i r c hi (by omega) (by omega)).symm

theorem fillConstraints_ok (K : RBF1D R) (x : List R) (A : MatrixXd R)
    (hA : HasEntries A (x.length + 4) (fun r c =>
        if r < x.length ∧ c < x.length then K.evaluateBasisFunction (sample x r) (sample x c)
        else 0)) :
    ∃ B, fillConstraints K x.length x A = .ok B ∧
      HasEntries B (x.length + 4) (constraintEntries K x x.length) := by
  unfold fillConstraints
  refine forLoop_inv (fun i (B : MatrixXd R) =>
    HasEntries B (x.length + 4) (constraintEntries K x i)) x.length _ A
    ⟨hA.1, hA.2.1, fun r c => ?_⟩ (fun i B hi hB => fillConstraints_step K x i B hi hB)
  rw [hA.2.2 r c]
  unfold constraintEntries
  simp only [Nat.not_lt_zero, if_false]
  by_cases hr : r < x.length
  · by_cases hc : c < x.length
    · simp only [hr, hc, and_self, if_true]
    · simp only [hr, hc, and_false, if_false, if_true]
  · simp only [hr, false_and, if_false]

theorem systemCoeff_block (K : RBF1D R) (x : List R) (r c : Nat) (hr : r < x.length)
    (hc : c < x.length) :
    systemCoeff K x r c = K.evaluateBasisFunction (sample x r) (sample x c) := by
  unfold systemCoeff
  simp only [hr, hc, if_true]

theorem systemCoeff_poly (K : RBF1D R) (x : List R) (r c : Nat) (hr : r < x.length)
    (hc : x.length ≤ c) : systemCoeff K x r c = polyEntry x r c := by
  have hc' : ¬ c < x.length := by omega
  unfold systemCoeff polyEntry
  simp only [hr, hc', if_true, if_false]

theorem systemCoeff_row (K : RBF1D R) (x : List R) (r c : Nat) (hr : x.length ≤ r)
    (hc : c < x.length) : systemCoeff K x r c = rowEntry K x r c := by
  have hr' : ¬ r < x.length := by omega
  unfold systemCoeff rowEntry
  simp only [hr', hc, if_true, if_false]

theorem systemCoeff_corner (K : RBF1D R) (x : List R) (r c : Nat) (hr : x.length ≤ r)
    (hc : x.length ≤ c) : systemCoeff K x r c = cornerEntry x r c := by
  have hr' : ¬ r < x.length := by omega
  have hc' : ¬ c < x.length := by omega
  unfold systemCoeff cornerEntry
  simp only [hr', hc', if_false]
  split_ifs <;> first | rfl | (exfalso; omega)

theorem fillCrossTerms_ok (K : RBF1D R) (x : List R) (A : MatrixXd R) (hpos : 0 < x.length)
    (hA : HasEntries A (x.length + 4) (constraintEntries K x x.length)) :
    ∃ B, fillCrossTerms x.length x A = .ok B ∧
      HasEntries B (x.length + 4) (systemCoeff K x) := by
  obtain ⟨hr, hc, hE⟩ := hA
  refine ⟨((A.put (x.length + 1) (x.length + 2)
      (2 * (sample x 0 - sample x (x.length - 1)))).put (x.length + 1) (x.length + 3)
      (3 * (sample x 0 * sample x 0 - sample x (x.length - 1) * sample x (x.length - 1)))).put
      (x.length + 2) (x.length + 3) (6 * (sample x 0 - sample x (x.length - 1))), ?_, ?_⟩
  · unfold fillCrossTerms
    rw [coeff_zero x 0 hpos, ok_bind, coeff_last x 0 hpos, ok_bind,
      set_of_eq A _ _ (x.length + 1) (x.length + 2) _ (by omega) (by omega) (by omega)
        (by omega), ok_bind,
      set_of_eq _ _ _ (x.length + 1) (x.length + 3) _ (by omega) (by omega)
        (by simp only [put_rows]; omega) (by simp only [put_cols]; omega), ok_bind,
      set_of_eq _ _ _ (x.length + 2) (x.length + 3) _ (by omega) (by omega)
        (by simp only [put_rows]; omega) (by simp only [put_cols]; omega)]
    rfl
  · refine ⟨by simp only [put_rows]; exact hr, by simp only [put_cols]; exact hc, fun r c => ?_⟩
    simp only [put_coeff, hE r c]
    by_cases hrn : r < x.length
    · have e2 : ¬ r = x.length + 2 := by omega
      have e1 : ¬ r = x.length + 1 := by omega
      simp only [e2, e1, false_and, if_false]
      by_cases hcn : c < x.length
      · rw [systemCoeff_block K x r c hrn hcn]
        unfold constraintEntries
        simp only [hrn, hcn, if_true]
      · rw [systemCoeff_poly K x r c hrn (by omega)]
        unfold constraintEntries
        simp only [hrn, hcn, if_true, if_false]
    · by_cases hcn : c < x.length
      · have c3 : ¬ c = x.length + 3 := by omega
        have c2 : ¬ c = x.length + 2 := by omega
        simp only [c3, c2, and_false, if_false]
        rw [systemCoeff_row K x r c (by omega) hcn]
        unfold constraintEntries
        simp only [hrn, hcn, if_true, if_false]
      · rw [systemCoeff_corner K x r c (by omega) (by omega)]
        unfold constraintEntries cornerEntry
        simp only [hrn, hcn, if_false]
        split_ifs <;> first | rfl | (exfalso; omega)

/-- For a non-empty sample vector and a value vector of the same length the assembly of
lines 49-84 does not fail, and it builds the `(n+4) x (n+4)` matrix with the entries
`systemCoeff` and the right-hand side of length `n+4` with the entries `rhsCoeff`. -/
theorem assembleSystem_ok (K : RBF1D R) (x f : List R) (hpos : 0 < x.length)
    (hlen : x.length ≤ f.length) :
    ∃ A b, assembleSystem K x f = .ok (A, b) ∧ HasEntries A (x.length + 4) (systemCoeff K x) ∧
      b.length = x.length + 4 ∧ ∀ i, b.getD i 0 = rhsCoeff x.length f i := by
  obtain ⟨b, hb, hbl, hbe⟩ := fillRhs_ok x.length f hlen
  obtain ⟨A1, h1, hA1⟩ := fillKernelBlock_ok K x
  obtain ⟨A2, h2, hA2⟩ := fillConstraints_ok K x A1 hA1
  obtain ⟨A3, h3, hA3⟩ := fillCrossTerms_ok K x A2 hpos hA2
  refine ⟨A3, b, ?_, hA3, hbl, hbe⟩
  unfold assembleSystem
  simp only []
  rw [hb, ok_bind, h1, ok_bind, h2, ok_bind, h3, ok_bind]
  rfl

/-! ## The equations that an exact solution satisfies -/

theorem mulVec_row (A : MatrixXd R) (w b : List R) (h : A.mulVec w = b) (r : Nat)
    (hr : r < A.rows) :
    Finset.sum (Finset.range A.cols) (fun j => A.coeff r j * weight w j) = b.getD r 0 := by
  rw [← h]
  unfold MatrixXd.mulVec
  rw [List.getD_eq_getElem?_getD, List.getElem?_map, List.getElem?_range hr]
  rfl

theorem solved_row (K : RBF1D R) (x w b : List R) (A : MatrixXd R)
    (hA : HasEntries A (x.length + 4) (systemCoeff K x)) (h : A.mulVec w = b) (r : Nat)
    (hr : r < x.length + 4) :
    Finset.sum (Finset.range x.length) (fun j => systemCoeff K x r j * weight w j) +
        systemCoeff K x r x.length * weight w x.length +
        systemCoeff K x r (x.length + 1) * weight w (x.length + 1) +
        systemCoeff K x r (x.length + 2) * weight w (x.length + 2) +
        systemCoeff K x r (x.length + 3) * weight w (x.length + 3) = b.getD r 0 := by
  obtain ⟨hr', hc', hE⟩ := hA
  have key := mulVec_row A w b h r (by omega)
  rw [hc'] at key
  simp only [hE] at key
  rw [← key]
  simp only [Finset.sum_range_succ]

/-- Row `i < n` of a solved system: the interpolation equation at the sample `x_i`, with
the kernel taken at `(x_i, x_j)`. -/
theorem solved_interpolation (K : RBF1D R) (x w b : List R) (A : MatrixXd R)
    (hA : HasEntries A (x.length + 4) (systemCoeff K x)) (h : A.mulVec w = b) (i : Nat)
    (hi : i < x.length) :
    Finset.sum (Finset.range x.length)
        (fun j => K.evaluateBasisFunction (sample x i) (sample x j) * weight w j) +
      (1 * weight w x.length + sample x i * weight w (x.length + 1) +
        sample x i * sample x i * weight w (x.length + 2) +
        sample x i * sample x i * sample x i * weight w (x.length + 3)) = b.getD i 0 := by
  have key := solved_row K x w b A hA h i (by omega)
  rw [← key]
  have hs : Finset.sum (Finset.range x.length) (fun j => systemCoeff K x i j * weight w j) =
      Finset.sum (Finset.range x.length)
        (fun j => K.evaluateBasisFunction (sample x i) (sample x j) * weight w j) :=
    Finset.sum_congr rfl (fun j hj => by
      rw [systemCoeff_block K x i j hi (Finset.mem_range.mp hj)])
  rw [hs, systemCoeff_poly K x i _ hi (le_refl _), systemCoeff_poly K x i _ hi (by omega),
    systemCoeff_poly K x i _ hi (by omega), systemCoeff_poly K x i _ hi (by omega)]
  simp only [polyEntry, if_true, Nat.add_right_eq_self, OfNat.ofNat_ne_zero, if_false,
    Nat.add_left_cancel_iff, OfNat.ofNat_ne_one, Nat.succ_ne_self, one_ne_zero]
  ring

theorem cornerEntry_values (x : List R) :
    cornerEntry x (x.length + 1) x.length = 0 ∧
    cornerEntry x (x.length + 1) (x.length + 1) = 0 ∧
    cornerEntry x (x.length + 1) (x.length + 2) = 2 * (sample x 0 - sample x (x.length - 1)) ∧
    cornerEntry x (x.length + 1) (x.length + 3) =
      3 * (sample x 0 * sample x 0 - sample x (x.length - 1) * sample x (x.length - 1)) ∧
    cornerEntry x (x.length + 2) x.length = 0 ∧
    cornerEntry x (x.length + 2) (x.length + 1) = 0 ∧
    cornerEntry x (x.length + 2) (x.length + 2) = 0 ∧
    cornerEntry x (x.length + 2) (x.length + 3) = 6 * (sample x 0 - sample x (x.length - 1)) ∧
    cornerEntry x (x.length + 3) x.length = 0 ∧
    cornerEntry x (x.length + 3) (x.length + 1) = 0 ∧
    cornerEntry x (x.length + 3) (x.length + 2) = 0 ∧
    cornerEntry x (x.length + 3) (x.length + 3) = 0 := by
  unfold cornerEntry
  refine ⟨?_, ?_, ?_, ?_, ?_, ?_, ?_, ?_, ?_, ?_, ?_, ?_⟩ <;>
    (split_ifs <;> first | rfl | (exfalso; omega))

theorem cornerEntry_sum_row (x : List R) (c : Nat) : cornerEntry x x.length c = 0 := by
  unfold cornerEntry
  split_ifs <;> first | rfl | (exfalso; omega)

/-- Row `n+1` of a solved system: the first-derivative matching equation. -/
theorem solved_derivative1 (K : RBF1D R) (x w b : List R) (A : MatrixXd R)
    (hA : HasEntries A (x.length + 4) (systemCoeff K x)) (h : A.mulVec w = b) :
    Finset.sum (Finset.range x.length) (fun j =>
        (K.dBFdx (sample x j) (sample x 0) - K.dBFdx (sample x j) (sample x (x.length - 1))) *
          weight w j) +
      (2 * (sample x 0 - sample x (x.length - 1)) * weight w (x.length + 2) +
        3 * (sample x 0 * sample x 0 - sample x (x.length - 1) * sample x (x.length - 1)) *
          weight w (x.length + 3)) = b.getD (x.length + 1) 0 := by
  have key := solved_row K x w b A hA h (x.length + 1) (by omega)
  rw [← key]
  have hs : Finset.sum (Finset.range x.length)
      (fun j => systemCoeff K x (x.length + 1) j * weight w j) =
      Finset.sum (Finset.range x.length) (fun j =>
        (K.dBFdx (sample x j) (sample x 0) - K.dBFdx (sample x j) (sample x (x.length - 1))) *
          weight w j) :=
    Finset.sum_congr rfl (fun j hj => by
      rw [systemCoeff_row K x _ j (by omega) (Finset.mem_range.mp hj)]
      unfold rowEntry
      rw [if_neg (by omega), if_pos rfl])
  obtain ⟨c0, c1, c2, c3, -⟩ := cornerEntry_values x
  rw [hs, systemCoeff_corner K x _ _ (by omega) (le_refl _),
    systemCoeff_corner K x _ _ (by omega) (by omega),
    systemCoeff_corner K x _ _ (by omega) (by omega),
    systemCoeff_corner K x _ _ (by omega) (by omega), c0, c1, c2, c3]
  ring

/-- Row `n+2` of a solved system: the second-derivative matching equation. -/
theorem solved_derivative2 (K : RBF1D R) (x w b : List R) (A : MatrixXd R)
    (hA : HasEntries A (x.length + 4) (systemCoeff K x)) (h : A.mulVec w = b) :
    Finset.sum (Finset.range x.length) (fun j =>
        (K.d2BFdx2 (sample x j) (sample x 0) -
          K.d2BFdx2 (sample x j) (sample x (x.length - 1))) * weight w j) +
      6 * (sample x 0 - sample x (x.length - 1)) * weight w (x.length + 3) =
        b.getD (x.length + 2) 0 := by
  have key := solved_row K x w b A hA h (x.length + 2) (by omega)
  rw [← key]
  have hs : Finset.sum (Finset.range x.length)
      (fun j => systemCoeff K x (x.length + 2) j * weight w j) =
      Finset.sum (Finset.range x.length) (fun j =>
        (K.d2BFdx2 (sample x j) (sample x 0) -
          K.d2BFdx2 (sample x j) (sample x (x.length - 1))) * weight w j) :=
    Finset.sum_congr rfl (fun j hj => by
      rw [systemCoeff_row K x _ j (by omega) (Finset.mem_range.mp hj)]
      unfold rowEntry
      rw [if_neg (by omega), if_neg (by omega), if_pos rfl])
  obtain ⟨-, -, -, -, c0, c1, c2, c3, -⟩ := cornerEntry_values x
  rw [hs, systemCoeff_corner K x _ _ (by omega) (le_refl _),
    systemCoeff_corner K x _ _ (by omega) (by omega),
    systemCoeff_corner K x _ _ (by omega) (by omega),
    systemCoeff_corner K x _ _ (by omega) (by omega), c0, c1, c2, c3]
  ring

/-- Row `n+3` of a solved system: the third-derivative matching equation. -/
theorem solved_derivative3 (K : RBF1D R) (x w b : List R) (A : MatrixXd R)
    (hA : HasEntries A (x.length + 4) (systemCoeff K x)) (h : A.mulVec w = b) :
    Finset.sum (Finset.range x.length) (fun j =>
        (K.d3BFdx3 (sample x j) (sample x 0) -
          K.d3BFdx3 (sample x j) (sample x (x.length - 1))) * weight w j) =
        b.getD (x.length + 3) 0 := by
  have key := solved_row K x w b A hA h (x.length + 3) (by omega)
  rw [← key]
  have hs : Finset.sum (Finset.range x.length)
      (fun j => systemCoeff K x (x.length + 3) j * weight w j) =
      Finset.sum (Finset.range x.length) (fun j =>
        (K.d3BFdx3 (sample x j) (sample x 0) -
          K.d3BFdx3 (sample x j) (sample x (x.length - 1))) * weight w j) :=
    Finset.sum_congr rfl (fun j hj => by
      rw [systemCoeff_row K x _ j (by omega) (Finset.mem_range.mp hj)]
      unfold rowEntry
      rw [if_neg (by omega), if_neg (by omega), if_neg (by omega), if_pos rfl])
  obtain ⟨-, -, -, -, -, -, -, -, c0, c1, c2, c3⟩ := cornerEntry_values x
  rw [hs, systemCoeff_corner K x _ _ (by omega) (le_refl _),
    systemCoeff_corner K x _ _ (by omega) (by omega),
    systemCoeff_corner K x _ _ (by omega) (by omega),
    systemCoeff_corner K x _ _ (by omega) (by omega), c0, c1, c2, c3]
  ring

theorem mulVec_getD (A : MatrixXd R) (w : List R) (r : Nat) (hr : r < A.rows) :
    (A.mulVec w).getD r 0 =
      Finset.sum (Finset.range A.cols) (fun j => A.coeff r j * weight w j) :=
  (mulVec_row A w (A.mulVec w) rfl r hr).symm

theorem polyEntry_values (x : List R) (r : Nat) :
    polyEntry x r x.length = 1 ∧ polyEntry x r (x.length + 1) = sample x r ∧
      polyEntry x r (x.length + 2) = sample x r * sample x r ∧
      polyEntry x r (x.length + 3) = sample x r * sample x r * sample x r := by
  unfold polyEntry
  refine ⟨?_, ?_, ?_, ?_⟩ <;> (split_ifs <;> first | rfl | (exfalso; omega))

theorem rowEntry_values (K : RBF1D R) (x : List R) (c : Nat) :
    rowEntry K x x.length c = 1 ∧
      rowEntry K x (x.length + 1) c =
        K.dBFdx (sample x c) (sample x 0) - K.dBFdx (sample x c) (sample x (x.length - 1)) ∧
      rowEntry K x (x.length + 2) c =
        K.d2BFdx2 (sample x c) (sample x 0) -
          K.d2BFdx2 (sample x c) (sample x (x.length - 1)) ∧
      rowEntry K x (x.length + 3) c =
        K.d3BFdx3 (sample x c) (sample x 0) -
          K.d3BFdx3 (sample x c) (sample x (x.length - 1)) := by
  unfold rowEntry
  refine ⟨?_, ?_, ?_, ?_⟩ <;> (split_ifs <;> first | rfl | (exfalso; omega))

/-- The difference of a kernel part at two coordinates, as one sum. -/
theorem kernelSum_sub (g : R → R → R) (x w : List R) (p q : R) :
    kernelSum g x w p - kernelSum g x w q =
      Finset.sum (Finset.range x.length) (fun j =>
        (g (sample x j) p - g (sample x j) q) * weight w j) := by
  unfold kernelSum
  rw [← Finset.sum_sub_distrib]
  exact Finset.sum_congr rfl (fun j _ => by ring)

end Assembled

/-! ## The four outcomes of a fit -/

section FitOutcome

variable {R : Type} [LinearOrderedField R]

theorem setRBFData_length_ne (K : RBF1D R) (S : Solver R) (self : PeriodicRBF1DC3 R)
    (x f : List R) (h : x.length ≠ f.length) :
    setRBFData K S self x f = (.error .assertion, self) := by
  unfold setRBFData
  rw [decide_eq_false h, cAssert_false]

theorem setRBFData_empty (K : RBF1D R) (S : Solver R) (self : PeriodicRBF1DC3 R)
    (x f : List R) (h : x.length = f.length) (h0 : f.length = 0) :
    setRBFData K S self x f = (.error .index, self) := by
  have hf : f = [] := List.length_eq_zero.mp h0
  subst hf
  unfold setRBFData
  rw [decide_eq_true h, cAssert_true]
  simp only [coeff_nil]

theorem setRBFData_ends_ne (K : RBF1D R) (S : Solver R) (self : PeriodicRBF1DC3 R)
    (x f : List R) (h : x.length = f.length) (h0 : 0 < f.length)
    (hne : f.getD 0 0 ≠ f.getD (f.length - 1) 0) :
    setRBFData K S self x f = (.error .assertion, self) := by
  unfold setRBFData
  rw [decide_eq_true h, cAssert_true]
  simp only [coeff_zero f 0 h0, coeff_last f 0 h0]
  rw [decide_eq_false hne, cAssert_false]

theorem setRBFData_accept (K : RBF1D R) (S : Solver R) (self : PeriodicRBF1DC3 R)
    (x f : List R) (h : x.length = f.length) (h0 : 0 < f.length)
    (he : f.getD 0 0 = f.getD (f.length - 1) 0) (A : MatrixXd R) (b : List R)
    (hA : assembleSystem K x f = .ok (A, b)) :
    setRBFData K S self x f =
      (.ok (), { xInput := x, fInput := f, w := S.solve A b, isInitialized := true }) := by
  unfold setRBFData
  rw [decide_eq_true h, cAssert_true]
  simp only [coeff_zero f 0 h0, coeff_last f 0 h0]
  rw [decide_eq_true he, cAssert_true]
  simp only [hA]

/-- A fit that succeeds was given vectors of one non-zero length with equal first and
last value, assembled a system, and stored the inputs and the solver's result. -/
theorem setRBFData_ok_inv (K : RBF1D R) (S : Solver R) (self s : PeriodicRBF1DC3 R)
    (x f : List R) (hfit : setRBFData K S self x f = (.ok (), s)) :
    x.length = f.length ∧ 0 < x.length ∧ f.getD 0 0 = f.getD (f.length - 1) 0 ∧
      ∃ A b, assembleSystem K x f = .ok (A, b) ∧
        HasEntries A (x.length + 4) (systemCoeff K x) ∧ b.length = x.length + 4 ∧
        (∀ i, b.getD i 0 = rhsCoeff x.length f i) ∧
        s = { xInput := x, fInput := f, w := S.solve A b, isInitialized := true } := by
  by_cases h : x.length = f.length
  · by_cases h0 : 0 < f.length
    · by_cases he : f.getD 0 0 = f.getD (f.length - 1) 0
      · obtain ⟨A, b, hA, hE, hbl, hb⟩ := assembleSystem_ok K x f (by omega) (le_of_eq h)
        rw [setRBFData_accept K S self x f h h0 he A b hA] at hfit
        exact ⟨h, by omega, he, A, b, hA, hE, hbl, hb, (Prod.mk.inj hfit).2.symm⟩
      · rw [setRBFData_ends_ne K S self x f h h0 he] at hfit
        exact absurd (Prod.mk.inj hfit).1 (by simp)
    · rw [setRBFData_empty K S self x f h (by omega)] at hfit
      exact absurd (Prod.mk.inj hfit).1 (by simp)
  · rw [setRBFData_length_ne K S self x f h] at hfit
    exact absurd (Prod.mk.inj hfit).1 (by simp)

end FitOutcome

/-! ## What the evaluators compute -/

section Evaluated

variable {R : Type} [LinearOrderedField R] [FloorRing R]

omit [FloorRing R] in
theorem kernelLoop_ok (g : R → R → R) (x w : List R) (q : R) (n : Nat) (hx : n ≤ x.length)
    (hw : n ≤ w.length) :
    forLoop n (fun k result => do
        let wk ← coeff w k
        let xk ← coeff x k
        .ok (result + wk * g xk q)) (0 : R) =
      .ok (Finset.sum (Finset.range n) (fun k => weight w k * g (sample x k) q)) := by
  induction n with
  | zero => simp [forLoop]
  | succ k ih =>
    rw [forLoop_succ_ok k _ _ _ (ih (by omega) (by omega))]
    show (coeff w (k : Int) >>= fun wk => coeff x (k : Int) >>= fun xk => _) = _
    rw [coeff_ofNat w k 0 (by omega), ok_bind, coeff_ofNat x k 0 (by omega), ok_bind,
      Finset.sum_range_succ]
    rfl

theorem evaluate_ok (K : RBF1D R) (self : PeriodicRBF1DC3 R) (q : R)
    (hinit : self.isInitialized = true) (hpos : 0 < self.xInput.length)
    (hw : self.w.length = self.xInput.length + 4) :
    evaluate K self q = .ok (S0 K self.xInput self.w (wrapped self q)) := by
  unfold evaluate
  have hn : ¬ ((self.xInput.length : Int) ≤ 0) := by omega
  rw [hinit]
  show (cAssert true >>= fun _ => _) = _
  rw [cAssert_true, ok_bind, coeff_zero _ 0 hpos, ok_bind, coeff_last _ 0 hpos, ok_bind]
  simp only [hn, if_false]
  rw [kernelLoop_ok _ _ _ _ _ (le_refl _) (by omega), ok_bind,
    coeff_ofNat _ _ 0 (by omega), ok_bind]
  rw [coeff_of_eq _ _ (self.xInput.length + 1) 0 (by omega) (by omega), ok_bind,
    coeff_of_eq _ _ (self.xInput.length + 2) 0 (by omega) (by omega), ok_bind,
    coeff_of_eq _ _ (self.xInput.length + 3) 0 (by omega) (by omega), ok_bind]
  rfl

theorem evaluateFirstDerivative_ok (K : RBF1D R) (self : PeriodicRBF1DC3 R) (q : R)
    (hinit : self.isInitialized = true) (hpos : 0 < self.xInput.length)
    (hw : self.w.length = self.xInput.length + 4) :
    evaluateFirstDerivative K self q = .ok (S1 K self.xInput self.w (wrapped self q)) := by
  unfold evaluateFirstDerivative
  have hn : ¬ ((self.xInput.length : Int) ≤ 0) := by omega
  rw [hinit]
  show (cAssert true >>= fun _ => _) = _
  rw [cAssert_true, ok_bind, coeff_zero _ 0 hpos, ok_bind, coeff_last _ 0 hpos, ok_bind]
  simp only [hn, if_false]
  rw [kernelLoop_ok _ _ _ _ _ (le_refl _) (by omega), ok_bind]
  rw [coeff_of_eq _ _ (self.xInput.length + 1) 0 (by omega) (by omega), ok_bind,
    coeff_of_eq _ _ (self.xInput.length + 2) 0 (by omega) (by omega), ok_bind,
    coeff_of_eq _ _ (self.xInput.length + 3) 0 (by omega) (by omega), ok_bind]
  rfl

theorem evaluateSecondDerivative_ok (K : RBF1D R) (self : PeriodicRBF1DC3 R) (q : R)
    (hinit : self.isInitialized = true) (hpos : 0 < self.xInput.length)
    (hw : self.w.length = self.xInput.length + 4) :
    evaluateSecondDerivative K self q = .ok (S2 K self.xInput self.w (wrapped self q)) := by
  unfold evaluateSecondDerivative
  have hn : ¬ ((self.xInput.length : Int) ≤ 0) := by omega
  rw [hinit]
  show (cAssert true >>= fun _ => _) = _
  rw [cAssert_true, ok_bind, coeff_zero _ 0 hpos, ok_bind, coeff_last _ 0 hpos, ok_bind]
  simp only [hn, if_false]
  rw [kernelLoop_ok _ _ _ _ _ (le_refl _) (by omega), ok_bind]
  rw [coeff_of_eq _ _ (self.xInput.length + 2) 0 (by omega) (by omega), ok_bind,
    coeff_of_eq _ _ (self.xInput.length + 3) 0 (by omega) (by omega), ok_bind]
  rfl

theorem evaluateThirdDerivative_ok (K : RBF1D R) (self : PeriodicRBF1DC3 R) (q : R)
    (hinit : self.isInitialized = true) (hpos : 0 < self.xInput.length)
    (hw : self.w.length = self.xInput.length + 4) :
    evaluateThirdDerivative K self q = .ok (S3 K self.xInput self.w (wrapped self q)) := by
  unfold evaluateThirdDerivative
  have hn : ¬ ((self.xInput.length : Int) ≤ 0) := by omega
  rw [hinit]
  show (cAssert true >>= fun _ => _) = _
  rw [cAssert_true, ok_bind, coeff_zero _ 0 hpos, ok_bind, coeff_last _ 0 hpos, ok_bind]
  simp only [hn, if_false]
  rw [kernelLoop_ok _ _ _ _ _ (le_refl _) (by omega), ok_bind]
  rw [coeff_of_eq _ _ (self.xInput.length + 3) 0 (by omega) (by omega), ok_bind]
  rfl

/-! ## The periodic wrap -/

theorem wrapToRange_add_period (v lo hi : R) (k : Int) (h : lo < hi) :
    wrapToRange (v + (k : R) * (hi - lo)) lo hi = wrapToRange v lo hi := by
  have hne : hi - lo ≠ 0 := ne_of_gt (sub_pos.mpr h)
  unfold wrapToRange
  rw [if_pos h, if_pos h]
  have e : (v + (k : R) * (hi - lo) - lo) / (hi - lo) = (v - lo) / (hi - lo) + (k : R) := by
    field_simp
    ring
  rw [e, Int.floor_add_int]
  push_cast
  ring

theorem wrapToRange_mem (v lo hi : R) (h : lo < hi) :
    lo ≤ wrapToRange v lo hi ∧ wrapToRange v lo hi < hi := by
  have hpos : 0 < hi - lo := sub_pos.mpr h
  unfold wrapToRange
  rw [if_pos h]
  have h1 := Int.floor_le ((v - lo) / (hi - lo))
  have h2 := Int.lt_floor_add_one ((v - lo) / (hi - lo))
  rw [le_div_iff₀ hpos] at h1
  rw [div_lt_iff₀ hpos] at h2
  constructor
  · linarith
  · linarith

theorem wrapToRange_of_mem (v lo hi : R) (h1 : lo ≤ v) (h2 : v < hi) :
    wrapToRange v lo hi = v := by
  have h : lo < hi := lt_of_le_of_lt h1 h2
  have hpos : 0 < hi - lo := sub_pos.mpr h
  unfold wrapToRange
  rw [if_pos h]
  have : ⌊(v - lo) / (hi - lo)⌋ = 0 := by
    rw [Int.floor_eq_iff]
    constructor
    · simpa using div_nonneg (sub_nonneg.mpr h1) hpos.le
    · rw [div_lt_iff₀ hpos]
      simp only [Int.cast_zero, zero_add, one_mul]
      linarith
  rw [this]
  simp

theorem wrapToRange_hi (lo hi : R) (h : lo < hi) : wrapToRange hi lo hi = lo := by
  have e := wrapToRange_add_period lo lo hi 1 h
  rw [wrapToRange_of_mem lo lo hi (le_refl _) h] at e
  rw [← e]
  congr 1
  push_cast
  ring

end Evaluated

/-! ## Worked instances -/

section InstanceFacts

theorem solvesSystem_square : SolvesSystem squareKernel [0, 1] [5, 5] [1, -1, 6, -2, 0, 0] := by
  simp [SolvesSystem, assembleSystem, fillRhs, fillKernelBlock, fillConstraints,
    fillCrossTerms, forLoop, coeff, setCoeff, MatrixXd.set, MatrixXd.zero, MatrixXd.mulVec,
    Finset.sum_range_succ, bind, Except.bind, squareKernel, List.range, List.range.loop, pure,
    Except.pure, Functor.map, Except.map]
  norm_num

theorem solvesSystem_skew : SolvesSystem skewKernel [0, 1] [5, 5] [1, -1, 5, 0, 0, 0] := by
  simp [SolvesSystem, assembleSystem, fillRhs, fillKernelBlock, fillConstraints,
    fillCrossTerms, forLoop, coeff, setCoeff, MatrixXd.set, MatrixXd.zero, MatrixXd.mulVec,
    Finset.sum_range_succ, bind, Except.bind, skewKernel, List.range, List.range.loop, pure,
    Except.pure, Functor.map, Except.map]

theorem fit_square :
    setRBFData squareKernel (fixedSolver [1, -1, 6, -2, 0, 0]) unfitted [0, 1] [5, 5] =
      (.ok (), fittedSquare) := rfl

theorem fit_skew :
    setRBFData skewKernel (fixedSolver [1, -1, 5, 0, 0, 0]) unfitted [0, 1] [5, 5] =
      (.ok (), fittedSkew) := rfl

theorem sorted_zero_one : ([0, 1] : List ℚ).Sorted (· < ·) := by
  simp [List.Sorted]

theorem squareKernel_symm (a b : ℚ) :
    squareKernel.evaluateBasisFunction a b = squareKernel.evaluateBasisFunction b a := by
  simp only [squareKernel]
  ring

end InstanceFacts

/-! ## The claims -/

section Claims

variable {R : Type} [LinearOrderedField R] [FloorRing R]

omit [FloorRing R] in
theorem sample_lt_of_sorted (x : List R) (hx : x.Sorted (· < ·)) (a b : Nat) (hab : a < b)
    (hb : b < x.length) : sample x a < sample x b := by
  unfold sample
  rw [List.getD_eq_getElem x 0 (lt_trans hab hb), List.getD_eq_getElem x 0 hb]
  exact List.pairwise_iff_getElem.mp hx a b (lt_trans hab hb) hb hab

/-- A strictly increasing sample vector with at least two entries wraps each of its
coordinates to itself, except the last one, which is wrapped to the first. -/
theorem wrapped_sample (x : List R) (hx : x.Sorted (· < ·)) (hn : 2 ≤ x.length) (i : Nat)
    (hi : i < x.length) :
    wrapToRange (sample x i) (sample x 0) (sample x (x.length - 1)) =
      sample x (if i = x.length - 1 then 0 else i) := by
  by_cases hl : i = x.length - 1
  · rw [if_pos hl, hl]
    exact wrapToRange_hi _ _ (sample_lt_of_sorted x hx 0 (x.length - 1) (by omega) (by omega))
  · rw [if_neg hl]
    refine wrapToRange_of_mem _ _ _ ?_ (sample_lt_of_sorted x hx i _ (by omega) (by omega))
    by_cases h0 : i = 0
    · rw [h0]
    · exact le_of_lt (sample_lt_of_sorted x hx 0 i (by omega) hi)

/-- C1 (amended). Interpolation property: for a kernel that is symmetric on the sample
coordinates, a strictly increasing sample vector `x` of length `n >= 2`, values `f` that
`setRBFData` accepts, and stored weights that solve the assembled system exactly,
`evaluate(x_i)` returns `f_i` for every `i < n`. -/
theorem interpolation_at_samples (K : RBF1D R) (S : Solver R) (self s : PeriodicRBF1DC3 R)
    (x f : List R)
    (hsym : ∀ i j, i < x.length → j < x.length →
      K.evaluateBasisFunction (sample x i) (sample x j) =
        K.evaluateBasisFunction (sample x j) (sample x i))
    (hx : x.Sorted (· < ·)) (hn : 2 ≤ x.length)
    (hfit : setRBFData K S self x f = (.ok (), s))
    (hexact : SolvesSystem K x f s.w) (i : Nat) (hi : i < x.length) :
    evaluate K s (sample x i) = .ok (f.getD i 0) := by
  obtain ⟨hlen, hpos, hends, A, b, hA, hE, hbl, hb, hs⟩ := setRBFData_ok_inv K S self s x f hfit
  subst hs
  simp only [SolvesSystem, hA] at hexact
  have hw : (S.solve A b).length = x.length + 4 := by rw [S.solve_length, hE.2.1]
  rw [evaluate_ok K _ _ rfl hpos hw]
  simp only [wrapped]
  rw [wrapped_sample x hx hn i hi]
  have hj : (if i = x.length - 1 then 0 else i) < x.length := by
    split_ifs <;> omega
  have hf : f.getD (if i = x.length - 1 then 0 else i) 0 = f.getD i 0 := by
    by_cases hl : i = x.length - 1
    · rw [if_pos hl, hl, hlen]
      exact hends
    · rw [if_neg hl]
  generalize (if i = x.length - 1 then 0 else i) = j at hj hf
  have row := solved_interpolation K x (S.solve A b) b A hE hexact j hj
  rw [hb j, rhsCoeff, if_pos hj, hf] at row
  rw [← row]
  congr 1
  unfold S0 kernelSum
  congr 1
  exact Finset.sum_congr rfl (fun k hk => by
    rw [hsym j k hj (Finset.mem_range.mp hk)]
    ring)

/-- Instance of C1 (amended): after the fit of `x = [0, 1]`, `f = [5, 5]` with
`squareKernel`, `evaluate(x_1)` returns `f_1`. -/
theorem interpolation_at_samples_witness :
    ([0, 1] : List ℚ).Sorted (· < ·) ∧ 2 ≤ ([0, 1] : List ℚ).length ∧
      setRBFData squareKernel (fixedSolver [1, -1, 6, -2, 0, 0]) unfitted [0, 1] [5, 5] =
        (.ok (), fittedSquare) ∧
      SolvesSystem squareKernel [0, 1] [5, 5] fittedSquare.w ∧
      evaluate squareKernel fittedSquare (sample [0, 1] 1) = .ok (([5, 5] : List ℚ).getD 1 0) :=
  ⟨sorted_zero_one, by decide, fit_square, solvesSystem_square,
    interpolation_at_samples squareKernel (fixedSolver [1, -1, 6, -2, 0, 0]) unfitted
      fittedSquare [0, 1] [5, 5] (fun i j _ _ => squareKernel_symm _ _) sorted_zero_one
      (by decide) fit_square solvesSystem_square 1 (by decide)⟩

/-- C1 as stated fails for a kernel that is not symmetric: with `K(a, b) = a`,
`x = [0, 1]`, `f = [5, 5]` the weights `[1, -1, 5, 0, 0, 0]` solve the assembled system
exactly, the fit succeeds, and `evaluate(x_0)` returns `4`, not `f_0 = 5`. -/
theorem interpolation_fails_for_skew_kernel :
    ([0, 1] : List ℚ).Sorted (· < ·) ∧ 2 ≤ ([0, 1] : List ℚ).length ∧
      ([5, 5] : List ℚ).getD 0 0 = ([5, 5] : List ℚ).getD 1 0 ∧
      setRBFData skewKernel (fixedSolver [1, -1, 5, 0, 0, 0]) unfitted [0, 1] [5, 5] =
        (.ok (), fittedSkew) ∧
      SolvesSystem skewKernel [0, 1] [5, 5] fittedSkew.w ∧
      evaluate skewKernel fittedSkew (sample [0, 1] 0) = .ok 4 ∧
      evaluate skewKernel fittedSkew (sample [0, 1] 0) ≠ .ok (([5, 5] : List ℚ).getD 0 0) := by
  have h : evaluate skewKernel fittedSkew (sample [0, 1] 0) = .ok 4 := by
    simp [evaluate, fittedSkew, sample, cAssert, coeff, forLoop, wrapToRange, skewKernel, bind,
      Except.bind]
    norm_num
  refine ⟨sorted_zero_one, by decide, rfl, fit_skew, solvesSystem_skew, h, ?_⟩
  rw [h]
  intro e
  simp at e

omit [FloorRing R] in
/-- C2. Derivative matching across the period boundary: for `x` of length `n >= 1`, any `f`
of the same length and any weights `w` that solve the assembled system exactly, the
unwrapped expressions of the three derivative evaluators take the same value at `x_0` and
at `x_{n-1}`. -/
theorem derivative_matching (K : RBF1D R) (x f w : List R) (hn : 1 ≤ x.length)
    (hlen : x.length = f.length) (hexact : SolvesSystem K x f w) :
    S1 K x w (sample x 0) = S1 K x w (sample x (x.length - 1)) ∧
      S2 K x w (sample x 0) = S2 K x w (sample x (x.length - 1)) ∧
      S3 K x w (sample x 0) = S3 K x w (sample x (x.length - 1)) := by
  obtain ⟨A, b, hA, hE, -, hb⟩ := assembleSystem_ok K x f (by omega) (le_of_eq hlen)
  simp only [SolvesSystem, hA] at hexact
  have r1 := solved_derivative1 K x w b A hE hexact
  have r2 := solved_derivative2 K x w b A hE hexact
  have r3 := solved_derivative3 K x w b A hE hexact
  rw [hb, rhsCoeff, if_neg (by omega), ← kernelSum_sub] at r1 r2 r3
  refine ⟨?_, ?_, ?_⟩
  · unfold S1
    linear_combination r1
  · unfold S2
    linear_combination r2
  · unfold S3
    linear_combination r3

/-- Instance of C2: `x = [0, 1]`, `f = [5, 5]`, `squareKernel` and the exact solution
`[1, -1, 6, -2, 0, 0]`. -/
theorem derivative_matching_witness :
    1 ≤ ([0, 1] : List ℚ).length ∧ ([0, 1] : List ℚ).length = ([5, 5] : List ℚ).length ∧
      SolvesSystem squareKernel [0, 1] [5, 5] [1, -1, 6, -2, 0, 0] ∧
      (S1 squareKernel [0, 1] [1, -1, 6, -2, 0, 0] (sample [0, 1] 0) =
          S1 squareKernel [0, 1] [1, -1, 6, -2, 0, 0]
            (sample [0, 1] (([0, 1] : List ℚ).length - 1)) ∧
        S2 squareKernel [0, 1] [1, -1, 6, -2, 0, 0] (sample [0, 1] 0) =
          S2 squareKernel [0, 1] [1, -1, 6, -2, 0, 0]
            (sample [0, 1] (([0, 1] : List ℚ).length - 1)) ∧
        S3 squareKernel [0, 1] [1, -1, 6, -2, 0, 0] (sample [0, 1] 0) =
          S3 squareKernel [0, 1] [1, -1, 6, -2, 0, 0]
            (sample [0, 1] (([0, 1] : List ℚ).length - 1))) :=
  ⟨by decide, rfl, solvesSystem_square,
    derivative_matching squareKernel [0, 1] [5, 5] [1, -1, 6, -2, 0, 0] (by decide) rfl
      solvesSystem_square⟩

/-- C3. Wraparound consistency: on an initialised state with `n >= 2` samples,
`x_0 < x_{n-1}` and `n + 4` stored weights of any value, each of the four evaluators
returns a result at `q`, and returns the same result at `q + k * (x_{n-1} - x_0)` for every
integer `k`. -/
theorem wraparound_consistency (K : RBF1D R) (s : PeriodicRBF1DC3 R) (q : R) (k : Int)
    (hinit : s.isInitialized = true) (hw : s.w.length = s.xInput.length + 4)
    (hn : 2 ≤ s.xInput.length)
    (hlt : sample s.xInput 0 < sample s.xInput (s.xInput.length - 1)) :
    (∃ v, evaluate K s q = .ok v ∧
        evaluate K s
          (q + (k : R) * (sample s.xInput (s.xInput.length - 1) - sample s.xInput 0)) = .ok v) ∧
      (∃ v, evaluateFirstDerivative K s q = .ok v ∧
        evaluateFirstDerivative K s
          (q + (k : R) * (sample s.xInput (s.xInput.length - 1) - sample s.xInput 0)) = .ok v) ∧
      (∃ v, evaluateSecondDerivative K s q = .ok v ∧
        evaluateSecondDerivative K s
          (q + (k : R) * (sample s.xInput (s.xInput.length - 1) - sample s.xInput 0)) = .ok v) ∧
      (∃ v, evaluateThirdDerivative K s q = .ok v ∧
        evaluateThirdDerivative K s
          (q + (k : R) * (sample s.xInput (s.xInput.length - 1) - sample s.xInput 0)) =
            .ok v) := by
  have hpos : 0 < s.xInput.length := by omega
  have e : wrapped s
      (q + (k : R) * (sample s.xInput (s.xInput.length - 1) - sample s.xInput 0)) =
      wrapped s q := wrapToRange_add_period q _ _ k hlt
  refine ⟨⟨_, evaluate_ok K s q hinit hpos hw, ?_⟩,
    ⟨_, evaluateFirstDerivative_ok K s q hinit hpos hw, ?_⟩,
    ⟨_, evaluateSecondDerivative_ok K s q hinit hpos hw, ?_⟩,
    ⟨_, evaluateThirdDerivative_ok K s q hinit hpos hw, ?_⟩⟩
  · rw [evaluate_ok K s _ hinit hpos hw, e]
  · rw [evaluateFirstDerivative_ok K s _ hinit hpos hw, e]
  · rw [evaluateSecondDerivative_ok K s _ hinit hpos hw, e]
  · rw [evaluateThirdDerivative_ok K s _ hinit hpos hw, e]

/-- Instance of C3: with `x = [0, 1, 2, 3, 4]` the evaluators return at
`6 = 2 + 1 * (4 - 0)` what they return at `2`. -/
theorem wraparound_consistency_witness :
    sineLike.isInitialized = true ∧ sineLike.w.length = sineLike.xInput.length + 4 ∧
      2 ≤ sineLike.xInput.length ∧
      sample sineLike.xInput 0 < sample sineLike.xInput (sineLike.xInput.length - 1) ∧
      (∃ v, evaluate squareKernel sineLike 2 = .ok v ∧
        evaluate squareKernel sineLike 6 = .ok v) ∧
      (∃ v, evaluateFirstDerivative squareKernel sineLike 2 = .ok v ∧
        evaluateFirstDerivative squareKernel sineLike 6 = .ok v) ∧
      (∃ v, evaluateSecondDerivative squareKernel sineLike 2 = .ok v ∧
        evaluateSecondDerivative squareKernel sineLike 6 = .ok v) ∧
      (∃ v, evaluateThirdDerivative squareKernel sineLike 2 = .ok v ∧
        evaluateThirdDerivative squareKernel sineLike 6 = .ok v) := by
  have hlt : sample sineLike.xInput 0 < sample sineLike.xInput (sineLike.xInput.length - 1) := by
    simp [sineLike, sample]
  have key := wraparound_consistency squareKernel sineLike 2 1 rfl rfl (by decide) hlt
  have e : (2 : ℚ) + ((1 : Int) : ℚ) *
      (sample sineLike.xInput (sineLike.xInput.length - 1) - sample sineLike.xInput 0) = 6 := by
    simp [sineLike, sample]
    norm_num
  rw [e] at key
  exact ⟨rfl, rfl, by decide, hlt, key⟩

/-- C4. Periodic boundary matching: on an initialised state with `n >= 2` samples,
`x_0 < x_{n-1}` and `n + 4` stored weights, each of the four evaluators returns the same
result at `x_0` and at `x_{n-1}`. -/
theorem boundary_matching (K : RBF1D R) (s : PeriodicRBF1DC3 R)
    (hinit : s.isInitialized = true) (hw : s.w.length = s.xInput.length + 4)
    (hn : 2 ≤ s.xInput.length)
    (hlt : sample s.xInput 0 < sample s.xInput (s.xInput.length - 1)) :
    (∃ v, evaluate K s (sample s.xInput 0) = .ok v ∧
        evaluate K s (sample s.xInput (s.xInput.length - 1)) = .ok v) ∧
      (∃ v, evaluateFirstDerivative K s (sample s.xInput 0) = .ok v ∧
        evaluateFirstDerivative K s (sample s.xInput (s.xInput.length - 1)) = .ok v) ∧
      (∃ v, evaluateSecondDerivative K s (sample s.xInput 0) = .ok v ∧
        evaluateSecondDerivative K s (sample s.xInput (s.xInput.length - 1)) = .ok v) ∧
      (∃ v, evaluateThirdDerivative K s (sample s.xInput 0) = .ok v ∧
        evaluateThirdDerivative K s (sample s.xInput (s.xInput.length - 1)) = .ok v) := by
  have hpos : 0 < s.xInput.length := by omega
  have e : wrapped s (sample s.xInput (s.xInput.length - 1)) = wrapped s (sample s.xInput 0) := by
    unfold wrapped
    rw [wrapToRange_hi _ _ hlt, wrapToRange_of_mem _ _ _ (le_refl _) hlt]
  refine ⟨⟨_, evaluate_ok K s _ hinit hpos hw, ?_⟩,
    ⟨_, evaluateFirstDerivative_ok K s _ hinit hpos hw, ?_⟩,
    ⟨_, evaluateSecondDerivative_ok K s _ hinit hpos hw, ?_⟩,
    ⟨_, evaluateThirdDerivative_ok K s _ hinit hpos hw, ?_⟩⟩
  · rw [evaluate_ok K s _ hinit hpos hw, e]
  · rw [evaluateFirstDerivative_ok K s _ hinit hpos hw, e]
  · rw [evaluateSecondDerivative_ok K s _ hinit hpos hw, e]
  · rw [evaluateThirdDerivative_ok K s _ hinit hpos hw, e]

/-- Instance of C4: the state with `x = [0, 1, 2, 3, 4]`, at `x_0 = 0` and `x_4 = 4`. -/
theorem boundary_matching_witness :
    sineLike.isInitialized = true ∧ sineLike.w.length = sineLike.xInput.length + 4 ∧
      2 ≤ sineLike.xInput.length ∧
      sample sineLike.xInput 0 < sample sineLike.xInput (sineLike.xInput.length - 1) ∧
      ((∃ v, evaluate squareKernel sineLike (sample sineLike.xInput 0) = .ok v ∧
          evaluate squareKernel sineLike
            (sample sineLike.xInput (sineLike.xInput.length - 1)) = .ok v) ∧
        (∃ v, evaluateFirstDerivative squareKernel sineLike (sample sineLike.xInput 0) = .ok v ∧
          evaluateFirstDerivative squareKernel sineLike
            (sample sineLike.xInput (sineLike.xInput.length - 1)) = .ok v) ∧
        (∃ v, evaluateSecondDerivative squareKernel sineLike (sample sineLike.xInput 0) = .ok v ∧
          evaluateSecondDerivative squareKernel sineLike
            (sample sineLike.xInput (sineLike.xInput.length - 1)) = .ok v) ∧
        (∃ v, evaluateThirdDerivative squareKernel sineLike (sample sineLike.xInput 0) = .ok v ∧
          evaluateThirdDerivative squareKernel sineLike
            (sample sineLike.xInput (sineLike.xInput.length - 1)) = .ok v)) :=
  ⟨rfl, rfl, by decide, by simp [sineLike, sample],
    boundary_matching squareKernel sineLike rfl rfl (by decide) (by simp [sineLike, sample])⟩

omit [FloorRing R] in
/-- C5. Fit rejects exactly the precondition violations: `setRBFData` fails on its first
assertion when the lengths of `x` and `f` differ; for equal lengths `n >= 1` it fails, on
its second assertion, if `f[0] != f[n-1]`, and succeeds if `f[0] = f[n-1]`, whatever else
holds of the input. -/
theorem fit_rejects_exactly (K : RBF1D R) (S : Solver R) (self : PeriodicRBF1DC3 R)
    (x f : List R) :
    (x.length ≠ f.length → (setRBFData K S self x f).1 = .error .assertion) ∧
      (x.length = f.length → 1 ≤ x.length →
        (f.getD 0 0 ≠ f.getD (x.length - 1) 0 →
          (setRBFData K S self x f).1 = .error .assertion) ∧
        (f.getD 0 0 = f.getD (x.length - 1) 0 → (setRBFData K S self x f).1 = .ok ()) ∧
        ((setRBFData K S self x f).1 ≠ .ok () ↔ f.getD 0 0 ≠ f.getD (x.length - 1) 0)) := by
  refine ⟨fun h => by rw [setRBFData_length_ne K S self x f h], fun h hn => ?_⟩
  rw [h]
  have bad : f.getD 0 0 ≠ f.getD (f.length - 1) 0 →
      (setRBFData K S self x f).1 = .error .assertion := fun hne => by
    rw [setRBFData_ends_ne K S self x f h (by omega) hne]
  have good : f.getD 0 0 = f.getD (f.length - 1) 0 → (setRBFData K S self x f).1 = .ok () :=
    fun he => by
      obtain ⟨A, b, hA, -⟩ := assembleSystem_ok K x f (by omega) (le_of_eq h)
      rw [setRBFData_accept K S self x f h (by omega) he A b hA]
  refine ⟨bad, good, ⟨fun hfail hends => hfail (good hends), fun hne hok => ?_⟩⟩
  rw [bad hne] at hok
  exact absurd hok (by simp)

/-- Instance of C5: `x` of length 5 with `f` of length 4 is rejected. -/
theorem fit_rejects_exactly_witness :
    ([0, 1, 2, 3, 4] : List ℚ).length ≠ ([0, 1, 0, -1] : List ℚ).length ∧
      (setRBFData squareKernel (fixedSolver []) unfitted [0, 1, 2, 3, 4] [0, 1, 0, -1]).1 =
        .error .assertion :=
  ⟨by decide,
    (fit_rejects_exactly squareKernel (fixedSolver []) unfitted [0, 1, 2, 3, 4]
      [0, 1, 0, -1]).1 (by decide)⟩

/-- C6. Evaluate requires a prior fit: each of the four evaluators fails on its assertion
when `isInitialized` is false, and returns a result on the state that a successful
`setRBFData` with `n >= 1` samples leaves. -/
theorem evaluate_requires_fit (K : RBF1D R) (S : Solver R) (self s : PeriodicRBF1DC3 R)
    (x f : List R) (q : R) :
    (s.isInitialized = false →
        evaluate K s q = .error .assertion ∧
        evaluateFirstDerivative K s q = .error .assertion ∧
        evaluateSecondDerivative K s q = .error .assertion ∧
        evaluateThirdDerivative K s q = .error .assertion) ∧
      (setRBFData K S self x f = (.ok (), s) → 1 ≤ x.length →
        s.isInitialized = true ∧
        (∃ v, evaluate K s q = .ok v) ∧
        (∃ v, evaluateFirstDerivative K s q = .ok v) ∧
        (∃ v, evaluateSecondDerivative K s q = .ok v) ∧
        (∃ v, evaluateThirdDerivative K s q = .ok v)) := by
  constructor
  · intro h
    refine ⟨?_, ?_, ?_, ?_⟩
    · unfold evaluate
      rw [h]
      rfl
    · unfold evaluateFirstDerivative
      rw [h]
      rfl
    · unfold evaluateSecondDerivative
      rw [h]
      rfl
    · unfold evaluateThirdDerivative
      rw [h]
      rfl
  · intro hfit _
    obtain ⟨-, hpos, -, A, b, -, hE, -, -, hs⟩ := setRBFData_ok_inv K S self s x f hfit
    subst hs
    have hw : (S.solve A b).length = x.length + 4 := by rw [S.solve_length, hE.2.1]
    exact ⟨rfl, ⟨_, evaluate_ok K _ q rfl hpos hw⟩,
      ⟨_, evaluateFirstDerivative_ok K _ q rfl hpos hw⟩,
      ⟨_, evaluateSecondDerivative_ok K _ q rfl hpos hw⟩,
      ⟨_, evaluateThirdDerivative_ok K _ q rfl hpos hw⟩⟩

/-- Instance of C6: the four evaluators fail on `unfitted` and return a result on the
state left by the fit of `x = [0, 1]`, `f = [5, 5]`. -/
theorem evaluate_requires_fit_witness :
    (unfitted.isInitialized = false ∧
        evaluate squareKernel unfitted 3 = .error .assertion ∧
        evaluateFirstDerivative squareKernel unfitted 3 = .error .assertion ∧
        evaluateSecondDerivative squareKernel unfitted 3 = .error .assertion ∧
        evaluateThirdDerivative squareKernel unfitted 3 = .error .assertion) ∧
      (setRBFData squareKernel (fixedSolver [1, -1, 6, -2, 0, 0]) unfitted [0, 1] [5, 5] =
          (.ok (), fittedSquare) ∧ 1 ≤ ([0, 1] : List ℚ).length ∧
        fittedSquare.isInitialized = true ∧
        (∃ v, evaluate squareKernel fittedSquare 3 = .ok v) ∧
        (∃ v, evaluateFirstDerivative squareKernel fittedSquare 3 = .ok v) ∧
        (∃ v, evaluateSecondDerivative squareKernel fittedSquare 3 = .ok v) ∧
        (∃ v, evaluateThirdDerivative squareKernel fittedSquare 3 = .ok v)) :=
  ⟨⟨rfl, (evaluate_requires_fit squareKernel (fixedSolver []) unfitted unfitted [] [] 3).1 rfl⟩,
    ⟨fit_square, by decide,
      (evaluate_requires_fit squareKernel (fixedSolver [1, -1, 6, -2, 0, 0]) unfitted
        fittedSquare [0, 1] [5, 5] 3).2 fit_square (by decide)⟩⟩

/-- C7 (code defect). Fitting with empty `x` and `f` does not succeed: the assertion of
line 36 reads `f_input[0]` of an empty vector and the call aborts on the range check,
leaving the object as it was; and were the stored sample vector empty on an initialised
object, each evaluator would abort on reading `xInput[0]` for the wrap, before its
`n <= 0` guard is reached. -/
theorem degenerate_fit_aborts (K : RBF1D R) (S : Solver R) (self : PeriodicRBF1DC3 R)
    (w : List R) (q : R) :
    setRBFData K S self [] [] = (.error .index, self) ∧
      evaluate K { xInput := [], fInput := [], w := w, isInitialized := true } q =
        .error .index ∧
      evaluateFirstDerivative K { xInput := [], fInput := [], w := w, isInitialized := true } q =
        .error .index ∧
      evaluateSecondDerivative K { xInput := [], fInput := [], w := w, isInitialized := true } q =
        .error .index ∧
      evaluateThirdDerivative K { xInput := [], fInput := [], w := w, isInitialized := true } q =
        .error .index :=
  ⟨setRBFData_empty K S self [] [] rfl rfl, rfl, rfl, rfl, rfl⟩

omit [FloorRing R] in
/-- C8. Fit is atomic on rejection: whenever `setRBFData` does not succeed, the object
after the call, with its `xInput`, `fInput`, `w` and `isInitialized`, is the object before
the call. -/
theorem fit_atomic_on_rejection (K : RBF1D R) (S : Solver R) (self : PeriodicRBF1DC3 R)
    (x f : List R) (hrej : (setRBFData K S self x f).1 ≠ .ok ()) :
    (setRBFData K S self x f).2 = self := by
  by_cases h : x.length = f.length
  · by_cases h0 : 0 < f.length
    · by_cases he : f.getD 0 0 = f.getD (f.length - 1) 0
      · obtain ⟨A, b, hA, -⟩ := assembleSystem_ok K x f (by omega) (le_of_eq h)
        rw [setRBFData_accept K S self x f h h0 he A b hA] at hrej
        exact absurd rfl hrej
      · rw [setRBFData_ends_ne K S self x f h h0 he]
    · rw [setRBFData_empty K S self x f h (by omega)]
  · rw [setRBFData_length_ne K S self x f h]

/-- Instance of C8: a fit of `x = [0, 1]`, `f = [5, 6]` on the fitted object `fittedSquare`
is rejected and leaves `fittedSquare` as it was. -/
theorem fit_atomic_on_rejection_witness :
    (setRBFData squareKernel (fixedSolver []) fittedSquare [0, 1] [5, 6]).1 ≠ .ok () ∧
      (setRBFData squareKernel (fixedSolver []) fittedSquare [0, 1] [5, 6]).2 = fittedSquare :=
  ⟨by
      rw [setRBFData_ends_ne squareKernel (fixedSolver []) fittedSquare [0, 1] [5, 6] rfl
        (by decide) (by simp)]
      simp,
    fit_atomic_on_rejection squareKernel (fixedSolver []) fittedSquare [0, 1] [5, 6] (by
      rw [setRBFData_ends_ne squareKernel (fixedSolver []) fittedSquare [0, 1] [5, 6] rfl
        (by decide) (by simp)]
      simp)⟩

omit [FloorRing R] in
/-- C9. Fitted-state invariant: after a successful `setRBFData(x, f)` with `n >= 1` the
stored `xInput` is `x`, the stored `fInput` is `f`, the system built during the call has
a matrix with `n + 4` rows and `n + 4` columns and a right-hand side of length `n + 4`,
the stored weights are the solver's answer to that system and have length `n + 4`, and
`isInitialized` is true. -/
theorem fitted_state_invariant (K : RBF1D R) (S : Solver R) (self s : PeriodicRBF1DC3 R)
    (x f : List R) (hfit : setRBFData K S self x f = (.ok (), s)) (hn : 1 ≤ x.length) :
    s.xInput = x ∧ s.fInput = f ∧ s.w.length = x.length + 4 ∧ s.isInitialized = true ∧
      ∃ A b, assembleSystem K x f = .ok (A, b) ∧ A.rows = x.length + 4 ∧
        A.cols = x.length + 4 ∧ b.length = x.length + 4 ∧ s.w = S.solve A b := by
  have _ := hn
  obtain ⟨-, -, -, A, b, hA, hE, hbl, -, hs⟩ := setRBFData_ok_inv K S self s x f hfit
  subst hs
  exact ⟨rfl, rfl, by rw [S.solve_length, hE.2.1], rfl, A, b, hA, hE.1, hE.2.1, hbl, rfl⟩

/-- Instance of C9: the fit of `x = [0, 1]`, `f = [5, 5]` with `squareKernel`. -/
theorem fitted_state_invariant_witness :
    setRBFData squareKernel (fixedSolver [1, -1, 6, -2, 0, 0]) unfitted [0, 1] [5, 5] =
        (.ok (), fittedSquare) ∧ 1 ≤ ([0, 1] : List ℚ).length ∧
      (fittedSquare.xInput = [0, 1] ∧ fittedSquare.fInput = [5, 5] ∧
        fittedSquare.w.length = ([0, 1] : List ℚ).length + 4 ∧
        fittedSquare.isInitialized = true ∧
        ∃ A b, assembleSystem squareKernel [0, 1] [5, 5] = .ok (A, b) ∧
          A.rows = ([0, 1] : List ℚ).length + 4 ∧ A.cols = ([0, 1] : List ℚ).length + 4 ∧
          b.length = ([0, 1] : List ℚ).length + 4 ∧
          fittedSquare.w = (fixedSolver [1, -1, 6, -2, 0, 0]).solve A b) :=
  ⟨fit_square, by decide,
    fitted_state_invariant squareKernel (fixedSolver [1, -1, 6, -2, 0, 0]) unfitted fittedSquare
      [0, 1] [5, 5] fit_square (by decide)⟩

/-- C10. A new fit replaces the fitted state entirely: a call `setRBFData(x, f)` that
succeeds on one prior object succeeds on every prior object and leaves the same object,
so each evaluator returns afterwards the same result whatever the prior object was. -/
theorem fit_replaces_state (K : RBF1D R) (S : Solver R) (s1 s2 : PeriodicRBF1DC3 R)
    (x f : List R) (hacc : (setRBFData K S s1 x f).1 = .ok ()) :
    setRBFData K S s2 x f = setRBFData K S s1 x f ∧
      ∀ q, evaluate K (setRBFData K S s2 x f).2 q = evaluate K (setRBFData K S s1 x f).2 q ∧
        evaluateFirstDerivative K (setRBFData K S s2 x f).2 q =
          evaluateFirstDerivative K (setRBFData K S s1 x f).2 q ∧
        evaluateSecondDerivative K (setRBFData K S s2 x f).2 q =
          evaluateSecondDerivative K (setRBFData K S s1 x f).2 q ∧
        evaluateThirdDerivative K (setRBFData K S s2 x f).2 q =
          evaluateThirdDerivative K (setRBFData K S s1 x f).2 q := by
  have hfit : setRBFData K S s1 x f = (.ok (), (setRBFData K S s1 x f).2) :=
    Prod.ext hacc rfl
  obtain ⟨hlen, hpos, hends, A, b, hA, -, -, -, -⟩ :=
    setRBFData_ok_inv K S s1 _ x f hfit
  have e : setRBFData K S s2 x f = setRBFData K S s1 x f := by
    rw [setRBFData_accept K S s1 x f hlen (by omega) hends A b hA,
      setRBFData_accept K S s2 x f hlen (by omega) hends A b hA]
  exact ⟨e, fun q => by rw [e]; exact ⟨rfl, rfl, rfl, rfl⟩⟩

/-- Instance of C10: the fit of `x = [0, 1]`, `f = [5, 5]` on the initialised object
`sineLike` and on `unfitted`. -/
theorem fit_replaces_state_witness :
    (setRBFData squareKernel (fixedSolver [1, -1, 6, -2, 0, 0]) unfitted [0, 1] [5, 5]).1 =
        .ok () ∧
      setRBFData squareKernel (fixedSolver [1, -1, 6, -2, 0, 0]) sineLike [0, 1] [5, 5] =
        setRBFData squareKernel (fixedSolver [1, -1, 6, -2, 0, 0]) unfitted [0, 1] [5, 5] :=
  ⟨congrArg Prod.fst fit_square,
    (fit_replaces_state squareKernel (fixedSolver [1, -1, 6, -2, 0, 0]) unfitted sineLike
      [0, 1] [5, 5] (congrArg Prod.fst fit_square)).1⟩

/-- C11. Evaluation formula, shared across the four orders: on an initialised state with
`n >= 1` samples and `n + 4` weights, the four entry points return what the one routine
`evaluateOrder` of the design gives for the orders 0, 1, 2, 3: the sum over the samples of
`w_i` times the order-`d` kernel at `(x_i, q')`, plus the order-`d` polynomial term at
`q'`, where `q'` is the wrapped query. -/
theorem evaluation_formula (K : RBF1D R) (s : PeriodicRBF1DC3 R) (q : R)
    (hinit : s.isInitialized = true) (hn : 1 ≤ s.xInput.length)
    (hw : s.w.length = s.xInput.length + 4) :
    evaluate K s q = .ok (evaluateOrder K s 0 q) ∧
      evaluateFirstDerivative K s q = .ok (evaluateOrder K s 1 q) ∧
      evaluateSecondDerivative K s q = .ok (evaluateOrder K s 2 q) ∧
      evaluateThirdDerivative K s q = .ok (evaluateOrder K s 3 q) := by
  have hpos : 0 < s.xInput.length := by omega
  refine ⟨?_, ?_, ?_, ?_⟩
  · rw [evaluate_ok K s q hinit hpos hw]
    congr 1
    simp only [S0, kernelSum, evaluateOrder, kernelOfOrder, polynomialOfOrder, wrapped]
    ring
  · rw [evaluateFirstDerivative_ok K s q hinit hpos hw]
    congr 1
    simp only [S1, kernelSum, evaluateOrder, kernelOfOrder, polynomialOfOrder, wrapped]
    ring
  · rw [evaluateSecondDerivative_ok K s q hinit hpos hw]
    congr 1
    simp only [S2, kernelSum, evaluateOrder, kernelOfOrder, polynomialOfOrder, wrapped]
    ring
  · rw [evaluateThirdDerivative_ok K s q hinit hpos hw]
    rfl

/-- Instance of C11: the state `sineLike` on `x = [0, 1, 2, 3, 4]`, at the query `6`. -/
theorem evaluation_formula_witness :
    sineLike.isInitialized = true ∧ 1 ≤ sineLike.xInput.length ∧
      sineLike.w.length = sineLike.xInput.length + 4 ∧
      (evaluate squareKernel sineLike 6 = .ok (evaluateOrder squareKernel sineLike 0 6) ∧
        evaluateFirstDerivative squareKernel sineLike 6 =
          .ok (evaluateOrder squareKernel sineLike 1 6) ∧
        evaluateSecondDerivative squareKernel sineLike 6 =
          .ok (evaluateOrder squareKernel sineLike 2 6) ∧
        evaluateThirdDerivative squareKernel sineLike 6 =
          .ok (evaluateOrder squareKernel sineLike 3 6)) :=
  ⟨rfl, by decide, rfl, evaluation_formula squareKernel sineLike 6 rfl (by decide) rfl⟩

omit [FloorRing R] in
/-- C12. Interpolation and polynomial-augmentation rows: for `x` of length `n >= 1` and
`f` of the same length (in particular for every accepted input) the system that
`setRBFData` builds has, for all `i, j < n`, `b[i] = f[i]`, `A[i][j] = K(x_i, x_j)`,
`A[i][n] = 1`, `A[i][n+1] = x_i`, `A[i][n+2] = x_i^2`, `A[i][n+3] = x_i^3`, and so for
every `w` of length `n + 4` the entry `i` of `A * w` is
`sum_{j<n} K(x_i, x_j) * w_j + w_n + w_{n+1} * x_i + w_{n+2} * x_i^2 + w_{n+3} * x_i^3`. -/
theorem interpolation_rows (K : RBF1D R) (x f : List R) (hn : 1 ≤ x.length)
    (hlen : x.length = f.length) :
    ∃ A b, assembleSystem K x f = .ok (A, b) ∧
      ∀ i, i < x.length →
        b.getD i 0 = f.getD i 0 ∧
        (∀ j, j < x.length →
          A.coeff i j = K.evaluateBasisFunction (sample x i) (sample x j)) ∧
        A.coeff i x.length = 1 ∧ A.coeff i (x.length + 1) = sample x i ∧
        A.coeff i (x.length + 2) = sample x i ^ 2 ∧
        A.coeff i (x.length + 3) = sample x i ^ 3 ∧
        ∀ w : List R, w.length = x.length + 4 →
          (A.mulVec w).getD i 0 =
            Finset.sum (Finset.range x.length)
                (fun j => K.evaluateBasisFunction (sample x i) (sample x j) * weight w j) +
              weight w x.length + weight w (x.length + 1) * sample x i +
              weight w (x.length + 2) * sample x i ^ 2 +
              weight w (x.length + 3) * sample x i ^ 3 := by
  obtain ⟨A, b, hA, hE, -, hb⟩ := assembleSystem_ok K x f (by omega) (le_of_eq hlen)
  refine ⟨A, b, hA, fun i hi => ?_⟩
  obtain ⟨p0, p1, p2, p3⟩ := polyEntry_values x i
  refine ⟨by rw [hb i, rhsCoeff, if_pos hi],
    fun j hj => by rw [hE.2.2, systemCoeff_block K x i j hi hj],
    by rw [hE.2.2, systemCoeff_poly K x i _ hi (le_refl _), p0],
    by rw [hE.2.2, systemCoeff_poly K x i _ hi (by omega), p1],
    by rw [hE.2.2, systemCoeff_poly K x i _ hi (by omega), p2]; ring,
    by rw [hE.2.2, systemCoeff_poly K x i _ hi (by omega), p3]; ring, fun w _ => ?_⟩
  rw [← solved_interpolation K x w (A.mulVec w) A hE rfl i hi]
  ring

/-- Instance of C12: the system of `x = [0, 1]`, `f = [5, 5]` with `squareKernel`. -/
theorem interpolation_rows_witness :
    1 ≤ ([0, 1] : List ℚ).length ∧ ([0, 1] : List ℚ).length = ([5, 5] : List ℚ).length ∧
      ∃ A b, assembleSystem squareKernel [0, 1] [5, 5] = .ok (A, b) ∧
        ∀ i, i < ([0, 1] : List ℚ).length →
          b.getD i 0 = ([5, 5] : List ℚ).getD i 0 ∧
          (∀ j, j < ([0, 1] : List ℚ).length →
            A.coeff i j =
              squareKernel.evaluateBasisFunction (sample [0, 1] i) (sample [0, 1] j)) ∧
          A.coeff i ([0, 1] : List ℚ).length = 1 ∧
          A.coeff i (([0, 1] : List ℚ).length + 1) = sample [0, 1] i ∧
          A.coeff i (([0, 1] : List ℚ).length + 2) = sample [0, 1] i ^ 2 ∧
          A.coeff i (([0, 1] : List ℚ).length + 3) = sample [0, 1] i ^ 3 ∧
          ∀ w : List ℚ, w.length = ([0, 1] : List ℚ).length + 4 →
            (A.mulVec w).getD i 0 =
              Finset.sum (Finset.range ([0, 1] : List ℚ).length)
                  (fun j =>
                    squareKernel.evaluateBasisFunction (sample [0, 1] i) (sample [0, 1] j) *
                      weight w j) +
                weight w ([0, 1] : List ℚ).length +
                weight w (([0, 1] : List ℚ).length + 1) * sample [0, 1] i +
                weight w (([0, 1] : List ℚ).length + 2) * sample [0, 1] i ^ 2 +
                weight w (([0, 1] : List ℚ).length + 3) * sample [0, 1] i ^ 3 :=
  ⟨by decide, rfl, interpolation_rows squareKernel [0, 1] [5, 5] (by decide) rfl⟩

omit [FloorRing R] in
/-- C13. Derivative-matching rows and their polynomial cross terms: for `x` of length
`n >= 1` and `f` of the same length (in particular for every accepted input), for the
orders `d = 1, 2, 3` and every `i < n`, `A[n+d][i] = K_d(x_i, x_0) - K_d(x_i, x_{n-1})` with
`K_d` the order-`d` kernel of the evaluators, sample coordinate first; in the polynomial
columns `A[n+1][n+2] = 2 * (x_0 - x_{n-1})`, `A[n+1][n+3] = 3 * (x_0^2 - x_{n-1}^2)`,
`A[n+2][n+3] = 6 * (x_0 - x_{n-1})` and every other entry of rows `n+1..n+3` in columns
`n..n+3` is zero; and `b[n+1] = b[n+2] = b[n+3] = 0`. -/
theorem derivative_rows (K : RBF1D R) (x f : List R) (hn : 1 ≤ x.length)
    (hlen : x.length = f.length) :
    ∃ A b, assembleSystem K x f = .ok (A, b) ∧
      (∀ d : Fin 4, d ≠ 0 → ∀ i, i < x.length →
        A.coeff (x.length + d.val) i =
          kernelOfOrder K d (sample x i) (sample x 0) -
            kernelOfOrder K d (sample x i) (sample x (x.length - 1))) ∧
      A.coeff (x.length + 1) (x.length + 2) = 2 * (sample x 0 - sample x (x.length - 1)) ∧
      A.coeff (x.length + 1) (x.length + 3) =
        3 * (sample x 0 ^ 2 - sample x (x.length - 1) ^ 2) ∧
      A.coeff (x.length + 2) (x.length + 3) = 6 * (sample x 0 - sample x (x.length - 1)) ∧
      (∀ r c, x.length + 1 ≤ r → r ≤ x.length + 3 → x.length ≤ c → c ≤ x.length + 3 →
        ¬ (r = x.length + 1 ∧ c = x.length + 2) → ¬ (r = x.length + 1 ∧ c = x.length + 3) →
        ¬ (r = x.length + 2 ∧ c = x.length + 3) → A.coeff r c = 0) ∧
      b.getD (x.length + 1) 0 = 0 ∧ b.getD (x.length + 2) 0 = 0 ∧
      b.getD (x.length + 3) 0 = 0 := by
  obtain ⟨A, b, hA, hE, -, hb⟩ := assembleSystem_ok K x f (by omega) (le_of_eq hlen)
  obtain ⟨-, -, c12, c13, -, -, -, c23, -⟩ := cornerEntry_values x
  refine ⟨A, b, hA, fun d hd i hi => ?_,
    by rw [hE.2.2, systemCoeff_corner K x _ _ (by omega) (by omega), c12],
    by rw [hE.2.2, systemCoeff_corner K x _ _ (by omega) (by omega), c13]; ring,
    by rw [hE.2.2, systemCoeff_corner K x _ _ (by omega) (by omega), c23],
    fun r c h1 _ h3 _ n12 n13 n23 => ?_,
    by rw [hb, rhsCoeff, if_neg (by omega)], by rw [hb, rhsCoeff, if_neg (by omega)],
    by rw [hb, rhsCoeff, if_neg (by omega)]⟩
  · obtain ⟨-, r1, r2, r3⟩ := rowEntry_values K x i
    rw [hE.2.2, systemCoeff_row K x _ i (by omega) hi]
    fin_cases d
    · exact absurd rfl hd
    · exact r1
    · exact r2
    · exact r3
  · rw [hE.2.2, systemCoeff_corner K x r c (by omega) h3]
    unfold cornerEntry
    rw [if_neg n12, if_neg n13, if_neg n23]

/-- Instance of C13: the system of `x = [0, 1]`, `f = [5, 5]` with `squareKernel`. -/
theorem derivative_rows_witness :
    1 ≤ ([0, 1] : List ℚ).length ∧ ([0, 1] : List ℚ).length = ([5, 5] : List ℚ).length ∧
      ∃ A b, assembleSystem squareKernel [0, 1] [5, 5] = .ok (A, b) ∧
        (∀ d : Fin 4, d ≠ 0 → ∀ i, i < 2 →
          A.coeff (2 + d.val) i =
            kernelOfOrder squareKernel d (sample [0, 1] i) 0 -
              kernelOfOrder squareKernel d (sample [0, 1] i) 1) ∧
        A.coeff 3 4 = -2 ∧ A.coeff 3 5 = -3 ∧ A.coeff 4 5 = -6 ∧
        A.coeff 3 2 = 0 ∧ A.coeff 3 3 = 0 ∧ A.coeff 4 2 = 0 ∧ A.coeff 4 3 = 0 ∧
        A.coeff 4 4 = 0 ∧ A.coeff 5 2 = 0 ∧ A.coeff 5 3 = 0 ∧ A.coeff 5 4 = 0 ∧
        A.coeff 5 5 = 0 ∧ b.getD 3 0 = 0 ∧ b.getD 4 0 = 0 ∧ b.getD 5 0 = 0 := by
  obtain ⟨A, b, hA, hk, h34, h35, h45, hz, b3, b4, b5⟩ :=
    derivative_rows squareKernel [0, 1] [5, 5] (by decide) rfl
  have e0 : sample ([0, 1] : List ℚ) 0 = 0 := rfl
  have e1 : sample ([0, 1] : List ℚ) (([0, 1] : List ℚ).length - 1) = 1 := rfl
  rw [e0, e1] at hk h34 h35 h45
  refine ⟨by decide, rfl, A, b, hA, hk, h34.trans (by norm_num), h35.trans (by norm_num),
    h45.trans (by norm_num), ?_, ?_, ?_, ?_, ?_, ?_, ?_, ?_, ?_, b3, b4, b5⟩ <;>
    exact hz _ _ (by decide) (by decide) (by decide) (by decide) (by decide) (by decide)
      (by decide)

omit [FloorRing R] in
/-- C14. Zero-sum-of-weights constraint: for `x` of length `n >= 1` and `f` of the same
length (in particular for every accepted input), row `n` of the system that `setRBFData`
builds has `A[n][i] = 1` for `i < n`, `A[n][c] = 0` for `c` in `n..n+3` and `b[n] = 0`, so
every `w` with `A * w = b` has `w_0 + ... + w_{n-1} = 0`. -/
theorem zero_sum_row (K : RBF1D R) (x f : List R) (hn : 1 ≤ x.length)
    (hlen : x.length = f.length) :
    ∃ A b, assembleSystem K x f = .ok (A, b) ∧
      (∀ i, i < x.length → A.coeff x.length i = 1) ∧
      (∀ c, x.length ≤ c → c ≤ x.length + 3 → A.coeff x.length c = 0) ∧
      b.getD x.length 0 = 0 ∧
      ∀ w : List R, A.mulVec w = b →
        Finset.sum (Finset.range x.length) (fun i => weight w i) = 0 := by
  obtain ⟨A, b, hA, hE, -, hb⟩ := assembleSystem_ok K x f (by omega) (le_of_eq hlen)
  have hrow : ∀ i, i < x.length → systemCoeff K x x.length i = 1 := fun i hi => by
    rw [systemCoeff_row K x _ i (le_refl _) hi, (rowEntry_values K x i).1]
  have hcorner : ∀ c, x.length ≤ c → systemCoeff K x x.length c = 0 := fun c hc => by
    rw [systemCoeff_corner K x _ c (le_refl _) hc, cornerEntry_sum_row]
  have hbn : b.getD x.length 0 = 0 := by rw [hb, rhsCoeff, if_neg (by omega)]
  refine ⟨A, b, hA, fun i hi => by rw [hE.2.2, hrow i hi],
    fun c hc _ => by rw [hE.2.2, hcorner c hc], hbn, fun w hw => ?_⟩
  have key := solved_row K x w b A hE hw x.length (by omega)
  rw [hbn, hcorner _ (le_refl _), hcorner _ (by omega), hcorner _ (by omega),
    hcorner _ (by omega)] at key
  have hs : Finset.sum (Finset.range x.length)
      (fun j => systemCoeff K x x.length j * weight w j) =
      Finset.sum (Finset.range x.length) (fun i => weight w i) :=
    Finset.sum_congr rfl (fun j hj => by rw [hrow j (Finset.mem_range.mp hj), one_mul])
  rw [hs] at key
  linear_combination key

/-- Instance of C14: the system of `x = [0, 1]`, `f = [5, 5]` with `squareKernel`. -/
theorem zero_sum_row_witness :
    1 ≤ ([0, 1] : List ℚ).length ∧ ([0, 1] : List ℚ).length = ([5, 5] : List ℚ).length ∧
      ∃ A b, assembleSystem squareKernel [0, 1] [5, 5] = .ok (A, b) ∧
        (∀ i, i < ([0, 1] : List ℚ).length → A.coeff ([0, 1] : List ℚ).length i = 1) ∧
        (∀ c, ([0, 1] : List ℚ).length ≤ c → c ≤ ([0, 1] : List ℚ).length + 3 →
          A.coeff ([0, 1] : List ℚ).length c = 0) ∧
        b.getD ([0, 1] : List ℚ).length 0 = 0 ∧
        ∀ w : List ℚ, A.mulVec w = b →
          Finset.sum (Finset.range ([0, 1] : List ℚ).length) (fun i => weight w i) = 0 :=
  ⟨by decide, rfl, zero_sum_row squareKernel [0, 1] [5, 5] (by decide) rfl⟩

omit [FloorRing R] in
/-- C16. Value continuity across the seam for a symmetric kernel: if `K(a, b) = K(b, a)`
for all `a, b`, then for `x` of length `n >= 1`, `f` of the same length with
`f[0] = f[n-1]` and weights `w` that solve the assembled system exactly, the unwrapped
order-0 expression takes the value `f_i` at every sample `x_i`, `i < n` (the last one
included), and so takes the same value at `x_0` and at `x_{n-1}`. -/
theorem seam_value_continuity (K : RBF1D R) (x f w : List R)
    (hsym : ∀ a b, K.evaluateBasisFunction a b = K.evaluateBasisFunction b a)
    (hn : 1 ≤ x.length) (hlen : x.length = f.length)
    (hends : f.getD 0 0 = f.getD (x.length - 1) 0) (hexact : SolvesSystem K x f w) :
    (∀ i, i < x.length → S0 K x w (sample x i) = f.getD i 0) ∧
      S0 K x w (sample x 0) = S0 K x w (sample x (x.length - 1)) := by
  obtain ⟨A, b, hA, hE, -, hb⟩ := assembleSystem_ok K x f (by omega) (le_of_eq hlen)
  simp only [SolvesSystem, hA] at hexact
  have hval : ∀ i, i < x.length → S0 K x w (sample x i) = f.getD i 0 := fun i hi => by
    have row := solved_interpolation K x w b A hE hexact i hi
    rw [hb i, rhsCoeff, if_pos hi] at row
    rw [← row]
    unfold S0 kernelSum
    congr 1
    exact Finset.sum_congr rfl (fun k _ => by
      rw [hsym (sample x i) (sample x k)]
      ring)
  exact ⟨hval, by rw [hval 0 (by omega), hval (x.length - 1) (by omega), hends]⟩

/-- Instance of C16: `x = [0, 1]`, `f = [5, 5]`, `squareKernel` and the exact solution
`[1, -1, 6, -2, 0, 0]`. -/
theorem seam_value_continuity_witness :
    (∀ a b : ℚ, squareKernel.evaluateBasisFunction a b =
        squareKernel.evaluateBasisFunction b a) ∧
      1 ≤ ([0, 1] : List ℚ).length ∧ ([0, 1] : List ℚ).length = ([5, 5] : List ℚ).length ∧
      ([5, 5] : List ℚ).getD 0 0 = ([5, 5] : List ℚ).getD (([0, 1] : List ℚ).length - 1) 0 ∧
      SolvesSystem squareKernel [0, 1] [5, 5] [1, -1, 6, -2, 0, 0] ∧
      ((∀ i, i < ([0, 1] : List ℚ).length →
          S0 squareKernel [0, 1] [1, -1, 6, -2, 0, 0] (sample [0, 1] i) =
            ([5, 5] : List ℚ).getD i 0) ∧
        S0 squareKernel [0, 1] [1, -1, 6, -2, 0, 0] (sample [0, 1] 0) =
          S0 squareKernel [0, 1] [1, -1, 6, -2, 0, 0]
            (sample [0, 1] (([0, 1] : List ℚ).length - 1))) :=
  ⟨squareKernel_symm, by decide, rfl, rfl, solvesSystem_square,
    seam_value_continuity squareKernel [0, 1] [5, 5] [1, -1, 6, -2, 0, 0] squareKernel_symm
      (by decide) rfl rfl solvesSystem_square⟩

/-- C17. Index safety for non-empty input: when `setRBFData(x, f)` succeeds with `n >= 1`,
every element access of the call is in range (`x_input` and `f_input` at `0..n-1`, the
matrix, which has `n + 4` rows and columns, up to row and column `n + 3`, `b`, which has
`n + 4` entries, up to `n - 1`), the assembly does not fail, and on the object it leaves
every element access of the four evaluators is in range (`xInput[0]`, `xInput[n-1]`,
`xInput[k]` and `w[k]` for `k < n`, and `w[n]`, `w[n+1]`, `w[n+2]`, `w[n+3]`), so that
each evaluator returns a result for every query. -/
theorem index_safety (K : RBF1D R) (S : Solver R) (self s : PeriodicRBF1DC3 R)
    (x f : List R) (q : R) (hfit : setRBFData K S self x f = (.ok (), s))
    (hn : 1 ≤ x.length) :
    ((∀ i : Nat, i < x.length →
          (∃ a, coeff x (i : Int) = .ok a) ∧ (∃ a, coeff f (i : Int) = .ok a)) ∧
        (∃ a, coeff x 0 = .ok a) ∧ (∃ a, coeff x ((x.length : Int) - 1) = .ok a) ∧
        (∃ a, coeff f 0 = .ok a) ∧ (∃ a, coeff f ((f.length : Int) - 1) = .ok a) ∧
        ∃ A b, assembleSystem K x f = .ok (A, b) ∧ x.length + 3 < A.rows ∧
          x.length + 3 < A.cols ∧ x.length - 1 < b.length) ∧
      ((∃ a, coeff s.xInput 0 = .ok a) ∧
        (∃ a, coeff s.xInput ((s.xInput.length : Int) - 1) = .ok a) ∧
        (∀ k : Nat, k < s.xInput.length →
          (∃ a, coeff s.xInput (k : Int) = .ok a) ∧ (∃ a, coeff s.w (k : Int) = .ok a)) ∧
        (∃ a, coeff s.w (s.xInput.length : Int) = .ok a) ∧
        (∃ a, coeff s.w ((s.xInput.length : Int) + 1) = .ok a) ∧
        (∃ a, coeff s.w ((s.xInput.length : Int) + 2) = .ok a) ∧
        (∃ a, coeff s.w ((s.xInput.length : Int) + 3) = .ok a)) ∧
      ((∃ v, evaluate K s q = .ok v) ∧ (∃ v, evaluateFirstDerivative K s q = .ok v) ∧
        (∃ v, evaluateSecondDerivative K s q = .ok v) ∧
        (∃ v, evaluateThirdDerivative K s q = .ok v)) := by
  have _ := hn
  obtain ⟨hlen, hpos, -, A, b, hA, hE, hbl, -, hs⟩ := setRBFData_ok_inv K S self s x f hfit
  subst hs
  have hw : (S.solve A b).length = x.length + 4 := by rw [S.solve_length, hE.2.1]
  have hfpos : 0 < f.length := by omega
  refine ⟨⟨fun i hi => ⟨⟨_, coeff_ofNat x i 0 hi⟩, ⟨_, coeff_ofNat f i 0 (by omega)⟩⟩,
      ⟨_, coeff_zero x 0 hpos⟩, ⟨_, coeff_last x 0 hpos⟩, ⟨_, coeff_zero f 0 hfpos⟩,
      ⟨_, coeff_last f 0 hfpos⟩, A, b, hA, by rw [hE.1]; omega, by rw [hE.2.1]; omega,
      by omega⟩,
    ⟨⟨_, coeff_zero x 0 hpos⟩, ⟨_, coeff_last x 0 hpos⟩,
      fun k hk => ⟨⟨_, coeff_ofNat x k 0 hk⟩,
        ⟨_, coeff_ofNat (S.solve A b) k 0 (by rw [hw]; exact Nat.lt_add_right 4 hk)⟩⟩,
      ⟨_, coeff_ofNat (S.solve A b) x.length 0 (by omega)⟩,
      ⟨_, coeff_of_eq (S.solve A b) _ (x.length + 1) 0 (by push_cast; rfl) (by omega)⟩,
      ⟨_, coeff_of_eq (S.solve A b) _ (x.length + 2) 0 (by push_cast; rfl) (by omega)⟩,
      ⟨_, coeff_of_eq (S.solve A b) _ (x.length + 3) 0 (by push_cast; rfl) (by omega)⟩⟩,
    ⟨_, evaluate_ok K _ q rfl hpos hw⟩, ⟨_, evaluateFirstDerivative_ok K _ q rfl hpos hw⟩,
    ⟨_, evaluateSecondDerivative_ok K _ q rfl hpos hw⟩,
    ⟨_, evaluateThirdDerivative_ok K _ q rfl hpos hw⟩⟩

/-- Instance of C17: the fit of `x = [0, 1]`, `f = [5, 5]` with `squareKernel`, and the
evaluators at the query `3` on the object it leaves. -/
theorem index_safety_witness :
    setRBFData squareKernel (fixedSolver [1, -1, 6, -2, 0, 0]) unfitted [0, 1] [5, 5] =
        (.ok (), fittedSquare) ∧ 1 ≤ ([0, 1] : List ℚ).length ∧
      (∃ A b, assembleSystem squareKernel [0, 1] [5, 5] = .ok (A, b) ∧
        ([0, 1] : List ℚ).length + 3 < A.rows ∧ ([0, 1] : List ℚ).length + 3 < A.cols ∧
        ([0, 1] : List ℚ).length - 1 < b.length) ∧
      (∃ a, coeff fittedSquare.w ((fittedSquare.xInput.length : Int) + 3) = .ok a) ∧
      (∃ v, evaluate squareKernel fittedSquare 3 = .ok v) ∧
      (∃ v, evaluateFirstDerivative squareKernel fittedSquare 3 = .ok v) ∧
      (∃ v, evaluateSecondDerivative squareKernel fittedSquare 3 = .ok v) ∧
      (∃ v, evaluateThirdDerivative squareKernel fittedSquare 3 = .ok v) := by
  obtain ⟨⟨-, -, -, -, -, hsys⟩, ⟨-, -, -, -, -, -, hw3⟩, h0, h1, h2, h3⟩ :=
    index_safety squareKernel (fixedSolver [1, -1, 6, -2, 0, 0]) unfitted fittedSquare
      [0, 1] [5, 5] 3 fit_square (by decide)
  exact ⟨fit_square, by decide, hsys, hw3, h0, h1, h2, h3⟩

end Claims

/-! ## Derivatives, over the real numbers -/

section ClaimsReal

theorem hasDerivAt_kernelSum (g g' : ℝ → ℝ → ℝ) (x w : List ℝ) (q : ℝ)
    (hg : ∀ a t, HasDerivAt (fun y => g a y) (g' a t) t) :
    HasDerivAt (fun t => kernelSum g x w t) (kernelSum g' x w q) q := by
  unfold kernelSum
  exact HasDerivAt.sum (fun k _ => (hg (sample x k) q).const_mul (weight w k))

theorem hasDerivAt_polynomial0 (p0 p1 p2 p3 q : ℝ) :
    HasDerivAt (fun t => 1 * p0 + t * p1 + t * t * p2 + t * t * t * p3)
      (p1 + 2 * q * p2 + 3 * q * q * p3) q := by
  have hid : HasDerivAt (fun t : ℝ => t) 1 q := hasDerivAt_id q
  have h := (((hasDerivAt_const q (1 * p0)).add (hid.mul_const p1)).add
    ((hid.mul hid).mul_const p2)).add (((hid.mul hid).mul hid).mul_const p3)
  refine h.congr_deriv ?_
  ring

theorem hasDerivAt_polynomial1 (p1 p2 p3 q : ℝ) :
    HasDerivAt (fun t => p1 + 2 * t * p2 + 3 * t * t * p3) (2 * p2 + 6 * q * p3) q := by
  have hid : HasDerivAt (fun t : ℝ => t) 1 q := hasDerivAt_id q
  have h := ((hasDerivAt_const q p1).add ((hid.const_mul 2).mul_const p2)).add
    (((hid.const_mul 3).mul hid).mul_const p3)
  refine h.congr_deriv ?_
  ring

theorem hasDerivAt_polynomial2 (p2 p3 q : ℝ) :
    HasDerivAt (fun t => 2 * p2 + 6 * t * p3) (6 * p3) q := by
  have hid : HasDerivAt (fun t : ℝ => t) 1 q := hasDerivAt_id q
  have h := (hasDerivAt_const q (2 * p2)).add ((hid.const_mul 6).mul_const p3)
  refine h.congr_deriv ?_
  ring

/-- Strictly inside the sample domain the wrap leaves the query as it is, on a whole
neighbourhood of the query. -/
theorem wrapped_eventually_id (s : PeriodicRBF1DC3 ℝ) (q : ℝ) (hlo : sample s.xInput 0 < q)
    (hhi : q < sample s.xInput (s.xInput.length - 1)) :
    (fun t => wrapped s t) =ᶠ[nhds q] (fun t => t) :=
  Filter.eventuallyEq_of_mem (Ioo_mem_nhds hlo hhi)
    (fun t ht => wrapToRange_of_mem t _ _ (le_of_lt ht.1) ht.2)

theorem hasDerivAt_polynomialOfOrder (p0 p1 p2 p3 q : ℝ) :
    HasDerivAt (polynomialOfOrder p0 p1 p2 p3 0) (polynomialOfOrder p0 p1 p2 p3 1 q) q ∧
      HasDerivAt (polynomialOfOrder p0 p1 p2 p3 1) (polynomialOfOrder p0 p1 p2 p3 2 q) q ∧
      HasDerivAt (polynomialOfOrder p0 p1 p2 p3 2) (polynomialOfOrder p0 p1 p2 p3 3 q) q := by
  refine ⟨?_, ?_, ?_⟩
  · have h := hasDerivAt_polynomial0 p0 p1 p2 p3 q
    have e : polynomialOfOrder p0 p1 p2 p3 0 =
        fun t => 1 * p0 + t * p1 + t * t * p2 + t * t * t * p3 := by
      funext t
      simp only [polynomialOfOrder]
      ring
    rw [e]
    refine h.congr_deriv ?_
    simp only [polynomialOfOrder]
    ring
  · have h := hasDerivAt_polynomial1 p1 p2 p3 q
    have e : polynomialOfOrder p0 p1 p2 p3 1 = fun t => p1 + 2 * t * p2 + 3 * t * t * p3 := by
      funext t
      simp only [polynomialOfOrder]
      ring
    rw [e]
    refine h.congr_deriv ?_
    simp only [polynomialOfOrder]
    ring
  · have h := hasDerivAt_polynomial2 p2 p3 q
    have e : polynomialOfOrder p0 p1 p2 p3 2 = fun t => 2 * p2 + 6 * t * p3 := by
      funext t
      simp only [polynomialOfOrder]
      ring
    rw [e]
    refine h.congr_deriv ?_
    simp only [polynomialOfOrder]

/-- C15. Derivative consistency, in exact arithmetic over the reals: if `dBFdx(a, .)` is
the derivative of `evaluateBasisFunction(a, .)`, `d2BFdx2(a, .)` that of `dBFdx(a, .)` and
`d3BFdx3(a, .)` that of `d2BFdx2(a, .)`, then on an initialised state with `n >= 2` samples
and `n + 4` weights, at every query `q` with `x_0 < q < x_{n-1}`, what
`evaluateFirstDerivative` returns at `q` is the derivative at `q` of what `evaluate`
returns, and likewise for the second derivative of the first and the third of the second;
and each order's polynomial term is the derivative of the previous order's. -/
theorem derivative_consistency (K : RBF1D ℝ) (s : PeriodicRBF1DC3 ℝ) (q : ℝ)
    (hK1 : ∀ a t, HasDerivAt (fun y => K.evaluateBasisFunction a y) (K.dBFdx a t) t)
    (hK2 : ∀ a t, HasDerivAt (fun y => K.dBFdx a y) (K.d2BFdx2 a t) t)
    (hK3 : ∀ a t, HasDerivAt (fun y => K.d2BFdx2 a y) (K.d3BFdx3 a t) t)
    (hinit : s.isInitialized = true) (hw : s.w.length = s.xInput.length + 4)
    (hn : 2 ≤ s.xInput.length) (hlo : sample s.xInput 0 < q)
    (hhi : q < sample s.xInput (s.xInput.length - 1)) :
    HasDerivAt (fun t => returned (evaluate K s t))
        (returned (evaluateFirstDerivative K s q)) q ∧
      HasDerivAt (fun t => returned (evaluateFirstDerivative K s t))
        (returned (evaluateSecondDerivative K s q)) q ∧
      HasDerivAt (fun t => returned (evaluateSecondDerivative K s t))
        (returned (evaluateThirdDerivative K s q)) q ∧
      ∀ p0 p1 p2 p3 : ℝ,
        HasDerivAt (polynomialOfOrder p0 p1 p2 p3 0) (polynomialOfOrder p0 p1 p2 p3 1 q) q ∧
        HasDerivAt (polynomialOfOrder p0 p1 p2 p3 1) (polynomialOfOrder p0 p1 p2 p3 2 q) q ∧
        HasDerivAt (polynomialOfOrder p0 p1 p2 p3 2) (polynomialOfOrder p0 p1 p2 p3 3 q) q := by
  have hpos : 0 < s.xInput.length := by omega
  have hq : wrapped s q = q := wrapToRange_of_mem q _ _ (le_of_lt hlo) hhi
  have hev := wrapped_eventually_id s q hlo hhi
  have d0 : HasDerivAt (fun t => S0 K s.xInput s.w t) (S1 K s.xInput s.w q) q :=
    (hasDerivAt_kernelSum _ _ s.xInput s.w q hK1).add (hasDerivAt_polynomial0 _ _ _ _ q)
  have d1 : HasDerivAt (fun t => S1 K s.xInput s.w t) (S2 K s.xInput s.w q) q :=
    (hasDerivAt_kernelSum _ _ s.xInput s.w q hK2).add (hasDerivAt_polynomial1 _ _ _ q)
  have d2 : HasDerivAt (fun t => S2 K s.xInput s.w t) (S3 K s.xInput s.w q) q :=
    (hasDerivAt_kernelSum _ _ s.xInput s.w q hK3).add (hasDerivAt_polynomial2 _ _ q)
  refine ⟨?_, ?_, ?_, fun p0 p1 p2 p3 => hasDerivAt_polynomialOfOrder p0 p1 p2 p3 q⟩
  · rw [evaluateFirstDerivative_ok K s q hinit hpos hw, hq]
    refine d0.congr_of_eventuallyEq (hev.mono (fun t ht => ?_))
    show returned (evaluate K s t) = S0 K s.xInput s.w t
    have ht' : wrapped s t = t := ht
    rw [evaluate_ok K s t hinit hpos hw, ht']
    rfl
  · rw [evaluateSecondDerivative_ok K s q hinit hpos hw, hq]
    refine d1.congr_of_eventuallyEq (hev.mono (fun t ht => ?_))
    show returned (evaluateFirstDerivative K s t) = S1 K s.xInput s.w t
    have ht' : wrapped s t = t := ht
    rw [evaluateFirstDerivative_ok K s t hinit hpos hw, ht']
    rfl
  · rw [evaluateThirdDerivative_ok K s q hinit hpos hw, hq]
    refine d2.congr_of_eventuallyEq (hev.mono (fun t ht => ?_))
    show returned (evaluateSecondDerivative K s t) = S2 K s.xInput s.w t
    have ht' : wrapped s t = t := ht
    rw [evaluateSecondDerivative_ok K s t hinit hpos hw, ht']
    rfl

theorem squareKernelOver_hasDerivAt :
    (∀ a t : ℝ, HasDerivAt (fun y => (squareKernelOver ℝ).evaluateBasisFunction a y)
        ((squareKernelOver ℝ).dBFdx a t) t) ∧
      (∀ a t : ℝ, HasDerivAt (fun y => (squareKernelOver ℝ).dBFdx a y)
        ((squareKernelOver ℝ).d2BFdx2 a t) t) ∧
      (∀ a t : ℝ, HasDerivAt (fun y => (squareKernelOver ℝ).d2BFdx2 a y)
        ((squareKernelOver ℝ).d3BFdx3 a t) t) := by
  refine ⟨fun a t => ?_, fun a t => ?_, fun a t => ?_⟩
  · have hid : HasDerivAt (fun y : ℝ => y) 1 t := hasDerivAt_id t
    have h1 : HasDerivAt (fun y : ℝ => a - y) (0 - 1) t := (hasDerivAt_const t a).sub hid
    refine (h1.mul h1).congr_deriv ?_
    simp only [squareKernelOver]
    ring
  · have hid : HasDerivAt (fun y : ℝ => y) 1 t := hasDerivAt_id t
    have h1 : HasDerivAt (fun y : ℝ => y - a) (1 - 0) t := hid.sub (hasDerivAt_const t a)
    refine (h1.const_mul 2).congr_deriv ?_
    simp only [squareKernelOver]
    ring
  · exact hasDerivAt_const t 2

/-- Instance of C15: the state on `x = [0, 1]` with the weights `[1, -1, 6, -2, 0, 0]` and
the kernel `(a - b)^2`, over the reals, at the query `1/2`. -/
theorem derivative_consistency_witness :
    (∀ a t : ℝ, HasDerivAt (fun y => (squareKernelOver ℝ).evaluateBasisFunction a y)
        ((squareKernelOver ℝ).dBFdx a t) t) ∧
      (∀ a t : ℝ, HasDerivAt (fun y => (squareKernelOver ℝ).dBFdx a y)
        ((squareKernelOver ℝ).d2BFdx2 a t) t) ∧
      (∀ a t : ℝ, HasDerivAt (fun y => (squareKernelOver ℝ).d2BFdx2 a y)
        ((squareKernelOver ℝ).d3BFdx3 a t) t) ∧
      (fittedSquareOver ℝ).isInitialized = true ∧
      (fittedSquareOver ℝ).w.length = (fittedSquareOver ℝ).xInput.length + 4 ∧
      2 ≤ (fittedSquareOver ℝ).xInput.length ∧
      sample (fittedSquareOver ℝ).xInput 0 < 1 / 2 ∧
      (1 / 2 : ℝ) < sample (fittedSquareOver ℝ).xInput
        ((fittedSquareOver ℝ).xInput.length - 1) ∧
      HasDerivAt (fun t => returned (evaluate (squareKernelOver ℝ) (fittedSquareOver ℝ) t))
        (returned (evaluateFirstDerivative (squareKernelOver ℝ) (fittedSquareOver ℝ) (1 / 2)))
        (1 / 2) ∧
      HasDerivAt
        (fun t => returned (evaluateFirstDerivative (squareKernelOver ℝ) (fittedSquareOver ℝ) t))
        (returned (evaluateSecondDerivative (squareKernelOver ℝ) (fittedSquareOver ℝ) (1 / 2)))
        (1 / 2) ∧
      HasDerivAt
        (fun t => returned (evaluateSecondDerivative (squareKernelOver ℝ) (fittedSquareOver ℝ) t))
        (returned (evaluateThirdDerivative (squareKernelOver ℝ) (fittedSquareOver ℝ) (1 / 2)))
        (1 / 2) := by
  have hlo : sample (fittedSquareOver ℝ).xInput 0 < 1 / 2 := by
    show (0 : ℝ) < 1 / 2
    norm_num
  have hhi : (1 / 2 : ℝ) < sample (fittedSquareOver ℝ).xInput
      ((fittedSquareOver ℝ).xInput.length - 1) := by
    show (1 / 2 : ℝ) < 1
    norm_num
  obtain ⟨k1, k2, k3⟩ := squareKernelOver_hasDerivAt
  obtain ⟨h0, h1, h2, -⟩ := derivative_consistency (squareKernelOver ℝ) (fittedSquareOver ℝ)
    (1 / 2) k1 k2 k3 rfl rfl (by decide) hlo hhi
  exact ⟨k1, k2, k3, rfl, rfl, by decide, hlo, hhi, h0, h1, h2⟩

end ClaimsReal

end rbf
